import Mathlib

/-!
Verification of the simple-png chunk dispatch and claim engine.

The Go source is shallowly embedded below:
* a byte stream is a `List Nat` (each entry a byte value); the reader is the
  `bytes.Reader`-style model of `io.Reader`: `Read(buf)` on a non-exhausted
  stream fills as many bytes as are available (a short read returns a byte
  count below the buffer size with no error), and on an exhausted stream
  returns the end-of-stream error;
* Go's three result channels (normal value, returned `error`, runtime panic)
  are the three constructors of `GoRes`;
* the pool of unconsumed records (`Png.chunks`, a `[]*chunk` whose entries
  the scan loop checks against `nil`) is a `List (Option chunk)`;
* the `OtherChunk` map (`map[ChunkName][]ChunkParse`), which `ParsePng` never
  initialises, is an `Option` of an association list: `none` models the Go
  nil map, on which lookups succeed (reporting absence) but assignments panic.
Chunk tags (`ChunkName`, a Go string of the four code bytes) are byte lists,
avoiding any UTF-8 concerns.
-/

namespace SimplePng

abbrev Byte := Nat

/-- The 4-byte chunk tag, `ChunkName` in the source (a Go string of the four
code bytes), modelled as the list of those bytes. -/
abbrev ChunkName := List Byte

/-- The magic signature, `pngHeaderBytes = 89 50 4E 47 0D 0A 1A 0A`. -/
def pngHeaderBytes : List Byte := [0x89, 0x50, 0x4E, 0x47, 0x0D, 0x0A, 0x1A, 0x0A]

def IHDRChunk : ChunkName := [73, 72, 68, 82]   -- "IHDR"
def PLTEChunk : ChunkName := [80, 76, 84, 69]   -- "PLTE"
def IDATChunk : ChunkName := [73, 68, 65, 84]   -- "IDAT"
def IENDChunk : ChunkName := [73, 69, 78, 68]   -- "IEND"
def BKGDChunk : ChunkName := [98, 75, 71, 68]   -- "bKGD"
def CHRMChunk : ChunkName := [99, 72, 82, 77]   -- "cHRM"
def GAMAChunk : ChunkName := [103, 65, 77, 65]  -- "gAMA"
def HISTChunk : ChunkName := [104, 73, 83, 84]  -- "hIST"
def SBITChunk : ChunkName := [115, 66, 73, 84]  -- "sBIT"
def TRNSChunk : ChunkName := [116, 82, 78, 83]  -- "tRNS"
def PHYSChunk : ChunkName := [112, 72, 89, 115] -- "pHYs"
def TEXTChunk : ChunkName := [116, 69, 88, 116] -- "tEXt"
def ZTXTChunk : ChunkName := [122, 84, 88, 84]  -- "zTXT" (sic, as in the source)
def TIMEChunk : ChunkName := [116, 73, 77, 69]  -- "tIME"

/-- The raw record, `type chunk struct { len, code [4]byte; data []byte; crc [4]byte }`. -/
structure chunk where
  len : List Byte
  code : List Byte
  data : List Byte
  crc : List Byte
deriving DecidableEq, Repr

/-- The distinct `error` values the embedded code can return. -/
inductive GoErr where
  /-- The `io.EOF` error, surfaced by a `Read` on an exhausted stream. -/
  | ioEOF
  /-- The error `errors.New("invalid png")` from the signature check. -/
  | invalidPng
  /-- The sentinel `chunkNotFoundErr = errors.New("chunk not found")`. -/
  | chunkNotFound
  /-- The error `errors.New("invalid chunk code")` from `IHDR.Parse`. -/
  | invalidChunkCode
  /-- The error `errors.New("invalid chunk data")` from `IHDR.Parse`. -/
  | invalidChunkData
  /-- The error `errors.New("no IDAT found")` from `parseBaseChunk`. -/
  | noIDAT
  /-- The error `errors.New("invalid text")` from `TEXT.Parse` and `ZTXT.Parse`. -/
  | invalidText
deriving DecidableEq, Repr

/-- Outcome of a Go computation: a value, a returned `error`
(`errors.WithStack` wrapping preserves identity, so errors are modelled
structurally), or a runtime panic. -/
inductive GoRes (α : Type) where
  | ok (a : α)
  | fail (e : GoErr)
  | panicked (msg : String)
deriving DecidableEq, Repr

def GoRes.bind : GoRes α → (α → GoRes β) → GoRes β
  | .ok a, f => f a
  | .fail e, _ => .fail e
  | .panicked m, _ => .panicked m

@[simp] theorem GoRes.bind_ok (a : α) (f : α → GoRes β) : (GoRes.ok a).bind f = f a := rfl
@[simp] theorem GoRes.bind_fail (e : GoErr) (f : α → GoRes β) :
    (GoRes.fail e).bind f = .fail e := rfl
@[simp] theorem GoRes.bind_panicked (m : String) (f : α → GoRes β) :
    (GoRes.panicked m).bind f = .panicked m := rfl

theorem GoRes.bind_eq_ok {r : GoRes α} {f : α → GoRes β} {b : β} :
    r.bind f = .ok b ↔ ∃ a, r = .ok a ∧ f a = .ok b := by
  cases r <;> simp [GoRes.bind]

theorem GoRes.bind_eq_fail {r : GoRes α} {f : α → GoRes β} {e : GoErr} :
    r.bind f = .fail e ↔ r = .fail e ∨ ∃ a, r = .ok a ∧ f a = .fail e := by
  cases r <;> simp [GoRes.bind]

theorem GoRes.bind_eq_panicked {r : GoRes α} {f : α → GoRes β} {m : String} :
    r.bind f = .panicked m ↔ r = .panicked m ∨ ∃ a, r = .ok a ∧ f a = .panicked m := by
  cases r <;> simp [GoRes.bind]

/-- The read `r.Read(buf)` with `len(buf) = n` in the `bytes.Reader` model: on an
exhausted stream `(0, io.EOF)`; otherwise up to `n` bytes are copied into the
zero-initialised buffer (a short read leaves the zero tail in place) and the
byte count is returned with no error.  Result: (buffer contents, count, rest
of the stream). -/
def readBuf (s : List Byte) (n : Nat) : GoRes (List Byte × Nat × List Byte) :=
  if s.isEmpty then .fail .ioEOF
  else .ok (s.take n ++ List.replicate (n - s.length) 0, min n s.length, s.drop n)

/-- Go `binary.BigEndian.Uint32` on a 4-byte buffer (every buffer built by
`readBuf _ 4` has length 4; the catch-all is unreachable there). -/
def beUint32 (l : List Byte) : Nat :=
  match l with
  | [a, b, c, d] => ((a * 256 + b) * 256 + c) * 256 + d
  | _ => 0

/-- Go `binary.BigEndian.Uint16` on a 2-byte buffer. -/
def beUint16 (l : List Byte) : Nat :=
  match l with
  | [a, b] => a * 256 + b
  | _ => 0

/-- The framing read `readChunk(r)`: reads the 4-byte length, the 4-byte tag, `length` payload
bytes and the 4-byte checksum.  Each `Read`'s byte count is discarded by the
source (`_, err = r.Read(...)`), so a short read is accepted as long as the
stream was not already exhausted. -/
def readChunk (s : List Byte) : GoRes (chunk × List Byte) :=
  (readBuf s 4).bind fun (l, _, s1) =>
  (readBuf s1 4).bind fun (name, _, s2) =>
  (readBuf s2 (beUint32 l)).bind fun (content, _, s3) =>
  (readBuf s3 4).bind fun (crc, _, s4) =>
  .ok ({ len := l, code := name, data := content, crc := crc }, s4)

theorem readBuf_ok_drop {s : List Byte} {n : Nat} {b : List Byte} {k : Nat} {s' : List Byte}
    (h : readBuf s n = .ok (b, k, s')) : s' = s.drop n ∧ s ≠ [] := by
  unfold readBuf at h
  split at h
  · cases h
  · next hne =>
    cases h
    exact ⟨rfl, by simpa [List.isEmpty_iff] using hne⟩

theorem readChunk_ok_length {s : List Byte} {c : chunk} {s' : List Byte}
    (h : readChunk s = .ok (c, s')) : s'.length < s.length := by
  unfold readChunk at h
  rw [GoRes.bind_eq_ok] at h
  obtain ⟨⟨l, k1, s1⟩, h1, h⟩ := h
  rw [GoRes.bind_eq_ok] at h
  obtain ⟨⟨name, k2, s2⟩, h2, h⟩ := h
  rw [GoRes.bind_eq_ok] at h
  obtain ⟨⟨content, k3, s3⟩, h3, h⟩ := h
  rw [GoRes.bind_eq_ok] at h
  obtain ⟨⟨crc, k4, s4⟩, h4, h⟩ := h
  cases h
  obtain ⟨hs1, hne⟩ := readBuf_ok_drop h1
  obtain ⟨hs2, -⟩ := readBuf_ok_drop h2
  obtain ⟨hs3, -⟩ := readBuf_ok_drop h3
  obtain ⟨hs4, -⟩ := readBuf_ok_drop h4
  subst hs1 hs2 hs3 hs4
  have hpos : 0 < s.length := List.length_pos.mpr hne
  simp only [List.length_drop]
  omega

/-! ## Built-in decoded values and their `Parse` functions (src/chunk.go) -/

/-- Decoded `IHDR` value. -/
structure IHDRv where
  Width : Nat
  Height : Nat
  BitDepth : Byte
  ColorType : Byte
  CompressionMethod : Byte
  FilterMethod : Byte
  InterlaceMethod : Byte
deriving DecidableEq, Repr

/-- Source `IHDR.Parse`: checks the code, requires at least 13 data bytes
(`chunk.data == nil` is subsumed by the length test), then extracts the
fields.  The `getD` defaults are unreachable under the length guard. -/
def IHDRv.Parse (c : chunk) : GoRes IHDRv :=
  if c.code ≠ IHDRChunk then .fail .invalidChunkCode
  else if c.data.length < 13 then .fail .invalidChunkData
  else .ok
    { Width := beUint32 (c.data.take 4)
      Height := beUint32 ((c.data.drop 4).take 4)
      BitDepth := c.data.getD 8 0
      ColorType := c.data.getD 9 0
      CompressionMethod := c.data.getD 10 0
      FilterMethod := c.data.getD 11 0
      InterlaceMethod := c.data.getD 12 0 }

/-- Decoded `IDAT` value. -/
structure IDATv where
  Length : Nat
  ChunkTypeCode : List Byte
  Data : List Byte
deriving DecidableEq, Repr

/-- Source `IDAT.Parse`: copies the framing fields; never fails. -/
def IDATv.Parse (c : chunk) : GoRes IDATv :=
  .ok { Length := beUint32 c.len, ChunkTypeCode := c.code, Data := c.data }

/-- Go declares `type IEND struct { IDAT }`: `IEND` embeds `IDAT`, so its value and
promoted `Parse` method are `IDAT`'s. -/
abbrev IENDv := IDATv

/-- Decoded `PLTE` value. -/
structure PLTEv where
  Red : Byte
  Green : Byte
  Blue : Byte
deriving DecidableEq, Repr

/-- Source `PLTE.Parse` reads `data[0]`, `data[1]`, `data[2]` with no length check:
fewer than 3 data bytes is an index-out-of-range panic. -/
def PLTEv.Parse (c : chunk) : GoRes PLTEv :=
  match c.data with
  | r :: g :: b :: _ => .ok { Red := r, Green := g, Blue := b }
  | _ => .panicked "runtime error: index out of range"

/-- Source `BKGD.Parse` is the stub `panic("implement me")`. -/
def BKGDv.Parse (_ : chunk) : GoRes Unit := .panicked "implement me"

/-- Source `CHRM.Parse` is the stub `panic("implement me")`. -/
def CHRMv.Parse (_ : chunk) : GoRes Unit := .panicked "implement me"

/-- Source `GAMA.Parse` is the stub `panic("implement me")`. -/
def GAMAv.Parse (_ : chunk) : GoRes Unit := .panicked "implement me"

/-- Source `HIST.Parse` is the stub `panic("implement me")`. -/
def HISTv.Parse (_ : chunk) : GoRes Unit := .panicked "implement me"

/-- Source `SBIT.Parse` is the stub `panic("implement me")`. -/
def SBITv.Parse (_ : chunk) : GoRes Unit := .panicked "implement me"

/-- Source `TRNS.Parse` is the stub `panic("implement me")`. -/
def TRNSv.Parse (_ : chunk) : GoRes Unit := .panicked "implement me"

/-- Decoded `pHYs` value. -/
structure PHYSv where
  X : Nat
  Y : Nat
  UnitSpecifier : Byte
deriving DecidableEq, Repr

/-- Source `PHYS.Parse` slices `data[:4]`, `data[4:8]` and indexes `data[8]` with no
length check; short data panics. -/
def PHYSv.Parse (c : chunk) : GoRes PHYSv :=
  if c.data.length < 8 then .panicked "runtime error: slice bounds out of range"
  else if c.data.length < 9 then .panicked "runtime error: index out of range"
  else .ok
    { X := beUint32 (c.data.take 4)
      Y := beUint32 ((c.data.drop 4).take 4)
      UnitSpecifier := c.data.getD 8 0 }

/-- Decoded `tIME` value. -/
structure TIMEv where
  Year : Nat
  Month : Byte
  Day : Byte
  Hour : Byte
  Minute : Byte
  Second : Byte
deriving DecidableEq, Repr

/-- Source `TIME.Parse` slices `data[:2]` and indexes `data[2]`..`data[6]` with no
length check; short data panics. -/
def TIMEv.Parse (c : chunk) : GoRes TIMEv :=
  if c.data.length < 2 then .panicked "runtime error: slice bounds out of range"
  else if c.data.length < 7 then .panicked "runtime error: index out of range"
  else .ok
    { Year := beUint16 (c.data.take 2)
      Month := c.data.getD 2 0
      Day := c.data.getD 3 0
      Hour := c.data.getD 4 0
      Minute := c.data.getD 5 0
      Second := c.data.getD 6 0 }

/-- The Go whitespace test used by `strings.TrimSpace`, for byte values in the
ASCII range (the multi-byte Unicode space runes do not arise from the
single-byte payloads considered here). -/
def isGoSpace (b : Byte) : Bool :=
  b = 9 ∨ b = 10 ∨ b = 11 ∨ b = 12 ∨ b = 13 ∨ b = 32

/-- Go `strings.TrimSpace` on the payload bytes (ASCII model, see `isGoSpace`). -/
def goTrimSpace (l : List Byte) : List Byte :=
  ((l.dropWhile isGoSpace).reverse.dropWhile isGoSpace).reverse

/-- Go `strings.Split(str, sep)` for a one-byte separator: splits at every
occurrence, keeping empty parts (`Split("", sep) = [""]`). -/
def goSplit (sep : Byte) : List Byte → List (List Byte)
  | [] => [[]]
  | b :: rest =>
    if b = sep then [] :: goSplit sep rest
    else
      match goSplit sep rest with
      | [] => [[b]]  -- unreachable: goSplit never returns []
      | part :: parts => (b :: part) :: parts

/-- Decoded `tEXt` value. -/
structure TEXTv where
  Keyword : List Byte
  Separator : List Byte
  Text : List Byte
deriving DecidableEq, Repr

/-- Source `TEXT.Parse`: trims the payload, splits on the NUL byte, and requires
exactly two parts; the separator field is set to the literal `" "`. -/
def TEXTv.Parse (c : chunk) : GoRes TEXTv :=
  match goSplit 0 (goTrimSpace c.data) with
  | [k, t] => .ok { Keyword := k, Separator := [32], Text := t }
  | _ => .fail .invalidText

/-- Decoded `zTXT` value. -/
structure ZTXTv where
  Keyword : List Byte
  Separator : List Byte
  CompressionMethod : Byte
  Text : List Byte
deriving DecidableEq, Repr

/-- Source `ZTXT.Parse`: like `TEXT.Parse`, but takes `strs[1][0]` as the
compression method — an index-out-of-range panic when the second part is
empty — and the rest as the text. -/
def ZTXTv.Parse (c : chunk) : GoRes ZTXTv :=
  match goSplit 0 (goTrimSpace c.data) with
  | [k, t] =>
    match t with
    | [] => .panicked "runtime error: index out of range"
    | cm :: rest => .ok { Keyword := k, Separator := [32], CompressionMethod := cm, Text := rest }
  | _ => .fail .invalidText

/-! ## The pool, the claim scan (`Png.ParseChunk`) and the `Png` container -/

/-- A caller-supplied decoder: the `ChunkParse` interface
(`ChunkName() ChunkName`, `Parse(chunk *chunk) error`). -/
structure ChunkParse where
  name : ChunkName
  parse : chunk → GoRes Unit

/-- The body of `ParseChunk`'s scan loop: walk the pool in arrival order,
skip `nil` entries, and at the first entry whose code equals `name` invoke
the parse.  `none` means the loop fell through with no match; `some r` is the
loop's outcome — on parse success the matched record (and only it) is removed
(the source clones the slice and erases index `i`, which is exactly this
prefix-preserving removal). -/
def claimScan (name : ChunkName) (parse : chunk → GoRes α) :
    List (Option chunk) → Option (GoRes (α × List (Option chunk)))
  | [] => none
  | none :: rest =>
    match claimScan name parse rest with
    | none => none
    | some (.ok (a, pool')) => some (.ok (a, none :: pool'))
    | some (.fail e) => some (.fail e)
    | some (.panicked m) => some (.panicked m)
  | some c :: rest =>
    if c.code = name then
      match parse c with
      | .ok a => some (.ok (a, rest))
      | .fail e => some (.fail e)
      | .panicked m => some (.panicked m)
    else
      match claimScan name parse rest with
      | none => none
      | some (.ok (a, pool')) => some (.ok (a, some c :: pool'))
      | some (.fail e) => some (.fail e)
      | some (.panicked m) => some (.panicked m)

/-- The call `ParseChunk(dec, true)` as `parseBaseChunk` always makes it: the scan,
with a miss reported as `chunkNotFoundErr` and no fallback-store side effect
(the `notSave` guard skips the `OtherChunk` branch). -/
def claimTyped (name : ChunkName) (parse : chunk → GoRes α)
    (pool : List (Option chunk)) : GoRes (α × List (Option chunk)) :=
  match claimScan name parse pool with
  | some r => r
  | none => .fail .chunkNotFound

theorem claimScan_ok_length {name : ChunkName} {parse : chunk → GoRes α}
    {pool pool' : List (Option chunk)} {a : α}
    (h : claimScan name parse pool = some (.ok (a, pool'))) :
    pool'.length < pool.length := by
  induction pool generalizing pool' with
  | nil => cases h
  | cons o rest ih =>
    cases o with
    | none =>
      rw [claimScan] at h
      rcases hrec : claimScan name parse rest with _ | r
      · rw [hrec] at h; cases h
      · rcases r with b | e | m <;> rw [hrec] at h
        · obtain ⟨b1, b2⟩ := b
          cases h
          simpa using ih hrec
        · cases h
        · cases h
    | some c =>
      rw [claimScan] at h
      by_cases hc : c.code = name
      · rw [if_pos hc] at h
        rcases hp : parse c with b | e | m <;> rw [hp] at h <;> cases h
        simp
      · rw [if_neg hc] at h
        rcases hrec : claimScan name parse rest with _ | r
        · rw [hrec] at h; cases h
        · rcases r with b | e | m <;> rw [hrec] at h
          · obtain ⟨b1, b2⟩ := b
            cases h
            simpa using ih hrec
          · cases h
          · cases h

theorem claimTyped_ok_length {name : ChunkName} {parse : chunk → GoRes α}
    {pool pool' : List (Option chunk)} {a : α}
    (h : claimTyped name parse pool = .ok (a, pool')) :
    pool'.length < pool.length := by
  unfold claimTyped at h
  rcases hscan : claimScan name parse pool with _ | r <;> rw [hscan] at h
  · cases h
  · cases h
    exact claimScan_ok_length hscan

/-- The repeated-claim loop of `parseBaseChunk` (`IDAT`, `tEXt`, `zTXT`):
claim until the error is `chunkNotFoundErr` (break), propagate any other
error or panic, and collect the decoded values in claim order. -/
def claimLoop (name : ChunkName) (parse : chunk → GoRes α)
    (pool : List (Option chunk)) : GoRes (List α × List (Option chunk)) :=
  match h : claimTyped name parse pool with
  | .fail .chunkNotFound => .ok ([], pool)
  | .fail e => .fail e
  | .panicked m => .panicked m
  | .ok (v, pool') =>
    match claimLoop name parse pool' with
    | .ok (vs, q) => .ok (v :: vs, q)
    | .fail e => .fail e
    | .panicked m => .panicked m
termination_by pool.length
decreasing_by exact claimTyped_ok_length h

/-- Unfolding equation for `claimLoop` with a plain (non-dependent) match. -/
theorem claimLoop_eq (name : ChunkName) (parse : chunk → GoRes α)
    (pool : List (Option chunk)) :
    claimLoop name parse pool =
      match claimTyped name parse pool with
      | .fail .chunkNotFound => .ok ([], pool)
      | .fail e => .fail e
      | .panicked m => .panicked m
      | .ok (v, pool') =>
        match claimLoop name parse pool' with
        | .ok (vs, q) => .ok (v :: vs, q)
        | .fail e => .fail e
        | .panicked m => .panicked m := by
  rw [claimLoop]
  split <;> simp_all

/-- The `Png` aggregate.  Pointer fields are `Option`s (`nil` = `none`); the
`OtherChunk` map is `none` when `nil`.  `bs` is never used by the embedded
code and is omitted. -/
structure Png where
  IHDR : Option IHDRv := none
  IDATs : List IDATv := []
  PLTE : Option PLTEv := none
  BKGD : Option Unit := none
  CHRM : Option Unit := none
  GAMA : Option Unit := none
  HIST : Option Unit := none
  PHYS : Option PHYSv := none
  SBIT : Option Unit := none
  TEXTs : List TEXTv := []
  TRNS : Option Unit := none
  TIME : Option TIMEv := none
  ZTXTs : List ZTXTv := []
  IEND : Option IENDv := none
  OtherChunk : Option (List (ChunkName × List ChunkParse)) := none
  chunks : List (Option chunk) := []

/-- Association-list read of the `OtherChunk` map. -/
def mapGet (m : List (ChunkName × List ChunkParse)) (k : ChunkName) :
    Option (List ChunkParse) :=
  (m.find? (fun kv => decide (kv.1 = k))).map Prod.snd

/-- Association-list write of the `OtherChunk` map. -/
def mapSet (m : List (ChunkName × List ChunkParse)) (k : ChunkName)
    (v : List ChunkParse) : List (ChunkName × List ChunkParse) :=
  match m with
  | [] => [(k, v)]
  | (k', v') :: rest => if k' = k then (k, v) :: rest else (k', v') :: mapSet rest k v

/-- The test `len(notSave) > 0 && notSave[0]` for the variadic `notSave ...bool`. -/
def notSaveFlag : List Bool → Bool
  | [] => false
  | b :: _ => b

/-- Method `Png.ParseChunk`: scan the pool for the first record matching the
decoder's tag; on parse failure return the error with the pool untouched; on
success remove exactly that record.  On a miss, unless `notSave[0]` is true,
record the decoder in `OtherChunk` — an assignment that panics when the map
is `nil` — and return `chunkNotFoundErr`.  The result pairs the returned
error with the updated receiver. -/
def Png.ParseChunk (p : Png) (c : ChunkParse) (notSave : List Bool := []) :
    GoRes Unit × Png :=
  match claimScan c.name c.parse p.chunks with
  | some (.ok (_, pool')) => (.ok (), { p with chunks := pool' })
  | some (.fail e) => (.fail e, p)
  | some (.panicked m) => (.panicked m, p)
  | none =>
    if notSaveFlag notSave then (.fail .chunkNotFound, p)
    else
      match p.OtherChunk with
      | none => (.panicked "assignment to entry in nil map", p)
      | some m =>
        match mapGet m c.name with
        | some x => (.fail .chunkNotFound, { p with OtherChunk := some (mapSet m c.name (x ++ [c])) })
        | none => (.fail .chunkNotFound, { p with OtherChunk := some (mapSet m c.name [c]) })

/-- Method `Png.GetOtherChunkByName`: map lookup (reading a `nil` map reports
absence). -/
def Png.GetOtherChunkByName (p : Png) (name : ChunkName) : GoRes (List ChunkParse) :=
  match p.OtherChunk with
  | none => .fail .chunkNotFound
  | some m =>
    match mapGet m name with
    | some list => .ok list
    | none => .fail .chunkNotFound

/-! ## The fixed decode plan, `parseBaseChunk`, as a chain of steps

Each step is one block of the Go function, threading the receiver.  Every
claim is made through `ParseChunk(_, true)` in the source, i.e. `claimTyped`.
-/

/-- Mandatory header block: claim `IHDR` once; any error is returned. -/
def stepIHDR (p : Png) : GoRes Png :=
  match claimTyped IHDRChunk IHDRv.Parse p.chunks with
  | .ok (v, pool') => .ok { p with IHDR := some v, chunks := pool' }
  | .fail e => .fail e
  | .panicked m => .panicked m

/-- Image-data block: claim `IDAT` until not found; zero records is the
`"no IDAT found"` error. -/
def stepIDATs (p : Png) : GoRes Png :=
  match claimLoop IDATChunk IDATv.Parse p.chunks with
  | .ok (vs, pool') =>
    if vs.isEmpty then .fail .noIDAT
    else .ok { p with IDATs := vs, chunks := pool' }
  | .fail e => .fail e
  | .panicked m => .panicked m

/-- Optional `PLTE` block: `if err == nil { p.PLTE = PLTE }` — a returned
error is swallowed, a panic propagates. -/
def stepPLTE (p : Png) : GoRes Png :=
  match claimTyped PLTEChunk PLTEv.Parse p.chunks with
  | .ok (v, pool') => .ok { p with PLTE := some v, chunks := pool' }
  | .fail _ => .ok p
  | .panicked m => .panicked m

/-- Optional `bKGD` block. -/
def stepBKGD (p : Png) : GoRes Png :=
  match claimTyped BKGDChunk BKGDv.Parse p.chunks with
  | .ok (v, pool') => .ok { p with BKGD := some v, chunks := pool' }
  | .fail _ => .ok p
  | .panicked m => .panicked m

/-- Optional `cHRM` block. -/
def stepCHRM (p : Png) : GoRes Png :=
  match claimTyped CHRMChunk CHRMv.Parse p.chunks with
  | .ok (v, pool') => .ok { p with CHRM := some v, chunks := pool' }
  | .fail _ => .ok p
  | .panicked m => .panicked m

/-- Optional `gAMA` block. -/
def stepGAMA (p : Png) : GoRes Png :=
  match claimTyped GAMAChunk GAMAv.Parse p.chunks with
  | .ok (v, pool') => .ok { p with GAMA := some v, chunks := pool' }
  | .fail _ => .ok p
  | .panicked m => .panicked m

/-- Optional `hIST` block. -/
def stepHIST (p : Png) : GoRes Png :=
  match claimTyped HISTChunk HISTv.Parse p.chunks with
  | .ok (v, pool') => .ok { p with HIST := some v, chunks := pool' }
  | .fail _ => .ok p
  | .panicked m => .panicked m

/-- Optional `pHYs` block. -/
def stepPHYS (p : Png) : GoRes Png :=
  match claimTyped PHYSChunk PHYSv.Parse p.chunks with
  | .ok (v, pool') => .ok { p with PHYS := some v, chunks := pool' }
  | .fail _ => .ok p
  | .panicked m => .panicked m

/-- Optional `sBIT` block. -/
def stepSBIT (p : Png) : GoRes Png :=
  match claimTyped SBITChunk SBITv.Parse p.chunks with
  | .ok (v, pool') => .ok { p with SBIT := some v, chunks := pool' }
  | .fail _ => .ok p
  | .panicked m => .panicked m

/-- Repeatable `tEXt` block: loop until not found; other errors propagate. -/
def stepTEXTs (p : Png) : GoRes Png :=
  match claimLoop TEXTChunk TEXTv.Parse p.chunks with
  | .ok (vs, pool') => .ok { p with TEXTs := vs, chunks := pool' }
  | .fail e => .fail e
  | .panicked m => .panicked m

/-- Optional `tRNS` block. -/
def stepTRNS (p : Png) : GoRes Png :=
  match claimTyped TRNSChunk TRNSv.Parse p.chunks with
  | .ok (v, pool') => .ok { p with TRNS := some v, chunks := pool' }
  | .fail _ => .ok p
  | .panicked m => .panicked m

/-- Optional `tIME` block. -/
def stepTIME (p : Png) : GoRes Png :=
  match claimTyped TIMEChunk TIMEv.Parse p.chunks with
  | .ok (v, pool') => .ok { p with TIME := some v, chunks := pool' }
  | .fail _ => .ok p
  | .panicked m => .panicked m

/-- Repeatable `zTXT` block. -/
def stepZTXTs (p : Png) : GoRes Png :=
  match claimLoop ZTXTChunk ZTXTv.Parse p.chunks with
  | .ok (vs, pool') => .ok { p with ZTXTs := vs, chunks := pool' }
  | .fail e => .fail e
  | .panicked m => .panicked m

/-- Terminal block: claim `IEND` once; any error is returned. -/
def stepIEND (p : Png) : GoRes Png :=
  match claimTyped IENDChunk IDATv.Parse p.chunks with
  | .ok (v, pool') => .ok { p with IEND := some v, chunks := pool' }
  | .fail e => .fail e
  | .panicked m => .panicked m

/-- Method `Png.parseBaseChunk`: the fixed plan, in source order. -/
def parseBaseChunk (p : Png) : GoRes Png :=
  (stepIHDR p).bind fun p =>
  (stepIDATs p).bind fun p =>
  (stepPLTE p).bind fun p =>
  (stepBKGD p).bind fun p =>
  (stepCHRM p).bind fun p =>
  (stepGAMA p).bind fun p =>
  (stepHIST p).bind fun p =>
  (stepPHYS p).bind fun p =>
  (stepSBIT p).bind fun p =>
  (stepTEXTs p).bind fun p =>
  (stepTRNS p).bind fun p =>
  (stepTIME p).bind fun p =>
  (stepZTXTs p).bind fun p =>
  stepIEND p

/-! ## Segmentation and `ParsePng` -/

/-- The record-reading loop of `ParsePng`: read chunks, appending each to the
pool, until (and including) one tagged `IEND`. -/
def segmentChunks (s : List Byte) (acc : List (Option chunk)) :
    GoRes (List (Option chunk)) :=
  match h : readChunk s with
  | .fail e => .fail e
  | .panicked m => .panicked m
  | .ok (c, s') =>
    if c.code = IENDChunk then .ok (acc ++ [some c])
    else segmentChunks s' (acc ++ [some c])
termination_by s.length
decreasing_by exact readChunk_ok_length h

/-- Unfolding equation for `segmentChunks` with a plain match. -/
theorem segmentChunks_eq (s : List Byte) (acc : List (Option chunk)) :
    segmentChunks s acc =
      match readChunk s with
      | .fail e => .fail e
      | .panicked m => .panicked m
      | .ok (c, s') =>
        if c.code = IENDChunk then .ok (acc ++ [some c])
        else segmentChunks s' (acc ++ [some c]) := by
  rw [segmentChunks]
  split <;> simp_all

/-- Function `ParsePng`: read and check the 8-byte signature, segment the stream into
the pool, then run the fixed plan on a fresh `Png` (whose `OtherChunk` map is
left uninitialised, i.e. `none`). -/
def ParsePng (input : List Byte) : GoRes Png :=
  (readBuf input 8).bind fun (hex, read, rest) =>
  if read ≠ 8 ∨ hex ≠ pngHeaderBytes then .fail .invalidPng
  else
    (segmentChunks rest []).bind fun chunks =>
    parseBaseChunk { chunks := chunks }

/-! ## A concrete well-formed stream and its evaluation

`demoInput` is Scenario A of the specification: signature, a 13-byte header
record, one image-data record with a single payload byte, and the terminal
record.  The terminal record's checksum bytes are a parameter `crc` so that
the same evaluation also settles the truncated-checksum stream used against
the framing claim. -/

def ihdrChunk : chunk :=
  { len := [0, 0, 0, 13]
    code := IHDRChunk
    data := [0, 0, 0, 1, 0, 0, 0, 1, 8, 0, 0, 0, 0]
    crc := [0, 0, 0, 0] }

def idatChunk : chunk :=
  { len := [0, 0, 0, 1], code := IDATChunk, data := [7], crc := [0, 0, 0, 0] }

def iendChunkC (crc : List Byte) : chunk :=
  { len := [0, 0, 0, 0], code := IENDChunk, data := [], crc := crc }

def iendChunk : chunk := iendChunkC [0, 0, 0, 0]

def body1 : List Byte :=
  ([0, 0, 0, 1] ++ IDATChunk ++ [7] ++ [0, 0, 0, 0]) ++
  ([0, 0, 0, 0] ++ IENDChunk ++ [0, 0, 0, 0])

def body2 : List Byte := [0, 0, 0, 0] ++ IENDChunk ++ [0, 0, 0, 0]

def demoBody : List Byte :=
  ([0, 0, 0, 13] ++ IHDRChunk ++ [0, 0, 0, 1, 0, 0, 0, 1, 8, 0, 0, 0, 0] ++ [0, 0, 0, 0]) ++ body1

def demoInput : List Byte := pngHeaderBytes ++ demoBody

def demoPoolC (crc : List Byte) : List (Option chunk) :=
  [some ihdrChunk, some idatChunk, some (iendChunkC crc)]

def demoPool : List (Option chunk) := demoPoolC [0, 0, 0, 0]

def demoIHDRv : IHDRv :=
  { Width := 1
    Height := 1
    BitDepth := 8
    ColorType := 0
    CompressionMethod := 0
    FilterMethod := 0
    InterlaceMethod := 0 }

def demoIDATv : IDATv := { Length := 1, ChunkTypeCode := IDATChunk, Data := [7] }

def demoIENDv : IENDv := { Length := 0, ChunkTypeCode := IENDChunk, Data := [] }

def demoP0C (crc : List Byte) : Png := { chunks := demoPoolC crc }

def demoP1C (crc : List Byte) : Png :=
  { IHDR := some demoIHDRv, chunks := [some idatChunk, some (iendChunkC crc)] }

def demoP2C (crc : List Byte) : Png :=
  { IHDR := some demoIHDRv, IDATs := [demoIDATv], chunks := [some (iendChunkC crc)] }

/-- The fully assembled container for `demoInput` (the checksum bytes do not
reach any decoded field). -/
def demoPng : Png :=
  { IHDR := some demoIHDRv, IDATs := [demoIDATv], IEND := some demoIENDv, chunks := [] }

theorem readChunk_demoBody : readChunk demoBody = .ok (ihdrChunk, body1) := by
  simp [readChunk, readBuf, GoRes.bind, beUint32, demoBody, body1, IHDRChunk, IDATChunk,
    IENDChunk, ihdrChunk]

theorem readChunk_body1 : readChunk body1 = .ok (idatChunk, body2) := by
  simp [readChunk, readBuf, GoRes.bind, beUint32, body1, body2, IDATChunk, IENDChunk, idatChunk]

theorem readChunk_body2 : readChunk body2 = .ok (iendChunk, []) := by
  simp [readChunk, readBuf, GoRes.bind, beUint32, body2, IENDChunk, iendChunk, iendChunkC]

theorem segment_demo : segmentChunks demoBody [] = .ok demoPool := by
  rw [segmentChunks_eq, readChunk_demoBody]
  norm_num [ihdrChunk, IHDRChunk, IENDChunk]
  rw [segmentChunks_eq, readChunk_body1]
  norm_num [idatChunk, IDATChunk, IENDChunk]
  rw [segmentChunks_eq, readChunk_body2]
  norm_num [ihdrChunk, idatChunk, iendChunk, iendChunkC, IHDRChunk, IDATChunk, IENDChunk,
    demoPool, demoPoolC]

theorem stepIHDR_demo (crc : List Byte) : stepIHDR (demoP0C crc) = .ok (demoP1C crc) := by
  simp [stepIHDR, claimTyped, claimScan, IHDRv.Parse, demoP0C, demoP1C, demoPoolC,
    ihdrChunk, idatChunk, iendChunkC, IHDRChunk, IDATChunk, IENDChunk, beUint32, demoIHDRv]

theorem claimLoop_IDAT_demo (crc : List Byte) :
    claimLoop IDATChunk IDATv.Parse [some idatChunk, some (iendChunkC crc)] =
      .ok ([demoIDATv], [some (iendChunkC crc)]) := by
  have h1 : claimTyped IDATChunk IDATv.Parse [some idatChunk, some (iendChunkC crc)] =
      .ok (demoIDATv, [some (iendChunkC crc)]) := by
    simp [claimTyped, claimScan, IDATv.Parse, idatChunk, iendChunkC, IDATChunk, IENDChunk,
      beUint32, demoIDATv]
  have h2 : claimTyped IDATChunk IDATv.Parse [some (iendChunkC crc)] = .fail .chunkNotFound := by
    simp [claimTyped, claimScan, iendChunkC, IDATChunk, IENDChunk]
  rw [claimLoop_eq, h1]
  norm_num
  rw [claimLoop_eq, h2]

theorem stepIDATs_demo (crc : List Byte) : stepIDATs (demoP1C crc) = .ok (demoP2C crc) := by
  rw [stepIDATs, demoP1C]
  norm_num [claimLoop_IDAT_demo]
  norm_num [demoP2C, demoIDATv]

theorem stepPLTE_demo (crc : List Byte) : stepPLTE (demoP2C crc) = .ok (demoP2C crc) := by
  simp [stepPLTE, claimTyped, claimScan, demoP2C, iendChunkC, PLTEChunk, IENDChunk]

theorem stepBKGD_demo (crc : List Byte) : stepBKGD (demoP2C crc) = .ok (demoP2C crc) := by
  simp [stepBKGD, claimTyped, claimScan, demoP2C, iendChunkC, BKGDChunk, IENDChunk]

theorem stepCHRM_demo (crc : List Byte) : stepCHRM (demoP2C crc) = .ok (demoP2C crc) := by
  simp [stepCHRM, claimTyped, claimScan, demoP2C, iendChunkC, CHRMChunk, IENDChunk]

theorem stepGAMA_demo (crc : List Byte) : stepGAMA (demoP2C crc) = .ok (demoP2C crc) := by
  simp [stepGAMA, claimTyped, claimScan, demoP2C, iendChunkC, GAMAChunk, IENDChunk]

theorem stepHIST_demo (crc : List Byte) : stepHIST (demoP2C crc) = .ok (demoP2C crc) := by
  simp [stepHIST, claimTyped, claimScan, demoP2C, iendChunkC, HISTChunk, IENDChunk]

theorem stepPHYS_demo (crc : List Byte) : stepPHYS (demoP2C crc) = .ok (demoP2C crc) := by
  simp [stepPHYS, claimTyped, claimScan, demoP2C, iendChunkC, PHYSChunk, IENDChunk]

theorem stepSBIT_demo (crc : List Byte) : stepSBIT (demoP2C crc) = .ok (demoP2C crc) := by
  simp [stepSBIT, claimTyped, claimScan, demoP2C, iendChunkC, SBITChunk, IENDChunk]

theorem stepTEXTs_demo (crc : List Byte) : stepTEXTs (demoP2C crc) = .ok (demoP2C crc) := by
  have h : claimTyped TEXTChunk TEXTv.Parse (demoP2C crc).chunks = .fail .chunkNotFound := by
    simp [claimTyped, claimScan, demoP2C, iendChunkC, TEXTChunk, IENDChunk]
  rw [stepTEXTs, claimLoop_eq, h]
  simp [demoP2C]

theorem stepTRNS_demo (crc : List Byte) : stepTRNS (demoP2C crc) = .ok (demoP2C crc) := by
  simp [stepTRNS, claimTyped, claimScan, demoP2C, iendChunkC, TRNSChunk, IENDChunk]

theorem stepTIME_demo (crc : List Byte) : stepTIME (demoP2C crc) = .ok (demoP2C crc) := by
  simp [stepTIME, claimTyped, claimScan, demoP2C, iendChunkC, TIMEChunk, IENDChunk]

theorem stepZTXTs_demo (crc : List Byte) : stepZTXTs (demoP2C crc) = .ok (demoP2C crc) := by
  have h : claimTyped ZTXTChunk ZTXTv.Parse (demoP2C crc).chunks = .fail .chunkNotFound := by
    simp [claimTyped, claimScan, demoP2C, iendChunkC, ZTXTChunk, IENDChunk]
  rw [stepZTXTs, claimLoop_eq, h]
  simp [demoP2C]

theorem stepIEND_demo (crc : List Byte) : stepIEND (demoP2C crc) = .ok demoPng := by
  simp [stepIEND, claimTyped, claimScan, IDATv.Parse, demoP2C, demoPng, iendChunkC,
    IENDChunk, beUint32, demoIENDv]

theorem parseBaseChunk_demo (crc : List Byte) : parseBaseChunk (demoP0C crc) = .ok demoPng := by
  rw [parseBaseChunk, stepIHDR_demo, GoRes.bind_ok, stepIDATs_demo, GoRes.bind_ok,
    stepPLTE_demo, GoRes.bind_ok, stepBKGD_demo, GoRes.bind_ok, stepCHRM_demo, GoRes.bind_ok,
    stepGAMA_demo, GoRes.bind_ok, stepHIST_demo, GoRes.bind_ok, stepPHYS_demo, GoRes.bind_ok,
    stepSBIT_demo, GoRes.bind_ok, stepTEXTs_demo, GoRes.bind_ok, stepTRNS_demo, GoRes.bind_ok,
    stepTIME_demo, GoRes.bind_ok, stepZTXTs_demo, GoRes.bind_ok, stepIEND_demo]

/-- Running `ParsePng` on the Scenario-A stream succeeds with the expected container. -/
theorem ParsePng_demo : ParsePng demoInput = .ok demoPng := by
  rw [ParsePng]
  have h8 : readBuf demoInput 8 = .ok (pngHeaderBytes, 8, demoBody) := by
    simp [readBuf, demoInput, demoBody, body1, body2, pngHeaderBytes, IHDRChunk, IDATChunk,
      IENDChunk]
  rw [h8, GoRes.bind_ok]
  norm_num
  rw [segment_demo, GoRes.bind_ok]
  have h0 : ({ chunks := demoPool } : Png) = demoP0C [0, 0, 0, 0] := rfl
  rw [h0, parseBaseChunk_demo]

/-! ## Success inversion for the fixed plan -/

theorem stepIHDR_ok_inv {p q : Png} (h : stepIHDR p = .ok q) :
    q.IHDR.isSome ∧ q.IDATs = p.IDATs ∧ q.IEND = p.IEND ∧ q.OtherChunk = p.OtherChunk := by
  unfold stepIHDR at h
  split at h <;> cases h <;> simp

theorem stepIDATs_ok_inv {p q : Png} (h : stepIDATs p = .ok q) :
    1 ≤ q.IDATs.length ∧ q.IHDR = p.IHDR ∧ q.IEND = p.IEND ∧ q.OtherChunk = p.OtherChunk := by
  unfold stepIDATs at h
  split at h
  · next vs pool' _ =>
    split at h
    · cases h
    · next hvs =>
      cases h
      refine ⟨?_, by simp, by simp, by simp⟩
      have : ¬ vs.isEmpty = true := hvs
      simp only [List.isEmpty_iff] at this
      have := List.length_pos.mpr this
      simpa using this
  · cases h
  · cases h

theorem stepPLTE_ok_inv {p q : Png} (h : stepPLTE p = .ok q) :
    q.IHDR = p.IHDR ∧ q.IDATs = p.IDATs ∧ q.IEND = p.IEND ∧ q.OtherChunk = p.OtherChunk := by
  unfold stepPLTE at h
  split at h <;> cases h <;> simp

theorem stepBKGD_ok_inv {p q : Png} (h : stepBKGD p = .ok q) :
    q.IHDR = p.IHDR ∧ q.IDATs = p.IDATs ∧ q.IEND = p.IEND ∧ q.OtherChunk = p.OtherChunk := by
  unfold stepBKGD at h
  split at h <;> cases h <;> simp

theorem stepCHRM_ok_inv {p q : Png} (h : stepCHRM p = .ok q) :
    q.IHDR = p.IHDR ∧ q.IDATs = p.IDATs ∧ q.IEND = p.IEND ∧ q.OtherChunk = p.OtherChunk := by
  unfold stepCHRM at h
  split at h <;> cases h <;> simp

theorem stepGAMA_ok_inv {p q : Png} (h : stepGAMA p = .ok q) :
    q.IHDR = p.IHDR ∧ q.IDATs = p.IDATs ∧ q.IEND = p.IEND ∧ q.OtherChunk = p.OtherChunk := by
  unfold stepGAMA at h
  split at h <;> cases h <;> simp

theorem stepHIST_ok_inv {p q : Png} (h : stepHIST p = .ok q) :
    q.IHDR = p.IHDR ∧ q.IDATs = p.IDATs ∧ q.IEND = p.IEND ∧ q.OtherChunk = p.OtherChunk := by
  unfold stepHIST at h
  split at h <;> cases h <;> simp

theorem stepPHYS_ok_inv {p q : Png} (h : stepPHYS p = .ok q) :
    q.IHDR = p.IHDR ∧ q.IDATs = p.IDATs ∧ q.IEND = p.IEND ∧ q.OtherChunk = p.OtherChunk := by
  unfold stepPHYS at h
  split at h <;> cases h <;> simp

theorem stepSBIT_ok_inv {p q : Png} (h : stepSBIT p = .ok q) :
    q.IHDR = p.IHDR ∧ q.IDATs = p.IDATs ∧ q.IEND = p.IEND ∧ q.OtherChunk = p.OtherChunk := by
  unfold stepSBIT at h
  split at h <;> cases h <;> simp

theorem stepTEXTs_ok_inv {p q : Png} (h : stepTEXTs p = .ok q) :
    q.IHDR = p.IHDR ∧ q.IDATs = p.IDATs ∧ q.IEND = p.IEND ∧ q.OtherChunk = p.OtherChunk := by
  unfold stepTEXTs at h
  split at h <;> cases h <;> simp

theorem stepTRNS_ok_inv {p q : Png} (h : stepTRNS p = .ok q) :
    q.IHDR = p.IHDR ∧ q.IDATs = p.IDATs ∧ q.IEND = p.IEND ∧ q.OtherChunk = p.OtherChunk := by
  unfold stepTRNS at h
  split at h <;> cases h <;> simp

theorem stepTIME_ok_inv {p q : Png} (h : stepTIME p = .ok q) :
    q.IHDR = p.IHDR ∧ q.IDATs = p.IDATs ∧ q.IEND = p.IEND ∧ q.OtherChunk = p.OtherChunk := by
  unfold stepTIME at h
  split at h <;> cases h <;> simp

theorem stepZTXTs_ok_inv {p q : Png} (h : stepZTXTs p = .ok q) :
    q.IHDR = p.IHDR ∧ q.IDATs = p.IDATs ∧ q.IEND = p.IEND ∧ q.OtherChunk = p.OtherChunk := by
  unfold stepZTXTs at h
  split at h <;> cases h <;> simp

theorem stepIEND_ok_inv {p q : Png} (h : stepIEND p = .ok q) :
    q.IEND.isSome ∧ q.IHDR = p.IHDR ∧ q.IDATs = p.IDATs ∧ q.OtherChunk = p.OtherChunk := by
  unfold stepIEND at h
  split at h <;> cases h <;> simp

/-- A successful run of the fixed plan yields a container with the header,
at least one image-data record and the terminal marker populated, and never
touches the fallback store. -/
theorem parseBaseChunk_ok_inv {p q : Png} (h : parseBaseChunk p = .ok q) :
    q.IHDR.isSome ∧ 1 ≤ q.IDATs.length ∧ q.IEND.isSome ∧ q.OtherChunk = p.OtherChunk := by
  unfold parseBaseChunk at h
  rw [GoRes.bind_eq_ok] at h; obtain ⟨p1, h1, h⟩ := h
  rw [GoRes.bind_eq_ok] at h; obtain ⟨p2, h2, h⟩ := h
  rw [GoRes.bind_eq_ok] at h; obtain ⟨p3, h3, h⟩ := h
  rw [GoRes.bind_eq_ok] at h; obtain ⟨p4, h4, h⟩ := h
  rw [GoRes.bind_eq_ok] at h; obtain ⟨p5, h5, h⟩ := h
  rw [GoRes.bind_eq_ok] at h; obtain ⟨p6, h6, h⟩ := h
  rw [GoRes.bind_eq_ok] at h; obtain ⟨p7, h7, h⟩ := h
  rw [GoRes.bind_eq_ok] at h; obtain ⟨p8, h8, h⟩ := h
  rw [GoRes.bind_eq_ok] at h; obtain ⟨p9, h9, h⟩ := h
  rw [GoRes.bind_eq_ok] at h; obtain ⟨p10, h10, h⟩ := h
  rw [GoRes.bind_eq_ok] at h; obtain ⟨p11, h11, h⟩ := h
  rw [GoRes.bind_eq_ok] at h; obtain ⟨p12, h12, h⟩ := h
  rw [GoRes.bind_eq_ok] at h; obtain ⟨p13, h13, h⟩ := h
  obtain ⟨i1, i2, i3, i4⟩ := stepIHDR_ok_inv h1
  obtain ⟨j1, j2, j3, j4⟩ := stepIDATs_ok_inv h2
  obtain ⟨k1, k2, k3, k4⟩ := stepPLTE_ok_inv h3
  obtain ⟨l1, l2, l3, l4⟩ := stepBKGD_ok_inv h4
  obtain ⟨m1, m2, m3, m4⟩ := stepCHRM_ok_inv h5
  obtain ⟨n1, n2, n3, n4⟩ := stepGAMA_ok_inv h6
  obtain ⟨o1, o2, o3, o4⟩ := stepHIST_ok_inv h7
  obtain ⟨r1, r2, r3, r4⟩ := stepPHYS_ok_inv h8
  obtain ⟨s1, s2, s3, s4⟩ := stepSBIT_ok_inv h9
  obtain ⟨t1, t2, t3, t4⟩ := stepTEXTs_ok_inv h10
  obtain ⟨u1, u2, u3, u4⟩ := stepTRNS_ok_inv h11
  obtain ⟨v1, v2, v3, v4⟩ := stepTIME_ok_inv h12
  obtain ⟨w1, w2, w3, w4⟩ := stepZTXTs_ok_inv h13
  obtain ⟨x1, x2, x3, x4⟩ := stepIEND_ok_inv h
  refine ⟨?_, ?_, x1, ?_⟩
  · rw [x2, w1, v1, u1, t1, s1, r1, o1, n1, m1, l1, k1, j2]
    exact i1
  · rw [x3, w2, v2, u2, t2, s2, r2, o2, n2, m2, l2, k2]
    exact j1
  · rw [x4, w4, v4, u4, t4, s4, r4, o4, n4, m4, l4, k4, j4, i4]

/-- Any successful `ParsePng` run went through the fixed plan on a fresh
`Png` holding only the segmented pool. -/
theorem ParsePng_ok_inv {input : List Byte} {p : Png} (h : ParsePng input = .ok p) :
    ∃ pool, parseBaseChunk { chunks := pool } = .ok p := by
  unfold ParsePng at h
  rw [GoRes.bind_eq_ok] at h
  obtain ⟨⟨hex, read, rest⟩, hr, h⟩ := h
  dsimp only at h
  by_cases hc : (read ≠ 8 ∨ hex ≠ pngHeaderBytes)
  · rw [if_pos hc] at h
    cases h
  · rw [if_neg hc] at h
    rw [GoRes.bind_eq_ok] at h
    obtain ⟨pool, hseg, h⟩ := h
    exact ⟨pool, h⟩

/-- C2: `ParsePng` either fails with an error and returns no `Png` at all
(its result type carries a container only in the `ok` case, so no partial
container can escape an error path), or returns a container holding the
mandatory header, at least one image-data record, and the terminal marker. -/
theorem c2_container_invariants (input : List Byte) (p : Png)
    (h : ParsePng input = .ok p) :
    p.IHDR.isSome ∧ 1 ≤ p.IDATs.length ∧ p.IEND.isSome := by
  obtain ⟨pool, hp⟩ := ParsePng_ok_inv h
  obtain ⟨h1, h2, h3, -⟩ := parseBaseChunk_ok_inv hp
  exact ⟨h1, h2, h3⟩

theorem c2_container_invariants_witness :
    demoPng.IHDR.isSome ∧ 1 ≤ demoPng.IDATs.length ∧ demoPng.IEND.isSome :=
  c2_container_invariants demoInput demoPng ParsePng_demo

/-- A caller-supplied decoder for an unknown tag `"cust"`, whose parse
always succeeds. -/
def custCP : ChunkParse := { name := [99, 117, 115, 116], parse := fun _ => .ok () }

/-- C8: every container produced by `ParsePng` has its fallback-store map
uninitialised (`nil`), and therefore any retention-enabled `ParseChunk` call
(the `notSave` flag not passed as `true`) that finds no matching record
panics on the assignment into the nil map instead of recording the decoder
and returning the not-found error. -/
theorem c8_nil_fallback_store :
    (∀ (input : List Byte) (p : Png), ParsePng input = .ok p → p.OtherChunk = none) ∧
    (∀ (p : Png) (cp : ChunkParse) (ns : List Bool), notSaveFlag ns = false →
      p.OtherChunk = none → claimScan cp.name cp.parse p.chunks = none →
      p.ParseChunk cp ns = (.panicked "assignment to entry in nil map", p)) := by
  constructor
  · intro input p h
    obtain ⟨pool, hp⟩ := ParsePng_ok_inv h
    obtain ⟨-, -, -, h4⟩ := parseBaseChunk_ok_inv hp
    exact h4
  · intro p cp ns hns hoc hscan
    unfold Png.ParseChunk
    rw [hscan, hns, hoc]
    simp

theorem c8_nil_fallback_store_witness :
    demoPng.OtherChunk = none ∧
      Png.ParseChunk { chunks := [] } custCP [] =
        (.panicked "assignment to entry in nil map", { chunks := [] }) :=
  ⟨c8_nil_fallback_store.1 demoInput demoPng ParsePng_demo,
   c8_nil_fallback_store.2 { chunks := [] } custCP [] rfl rfl rfl⟩

/-! ## C4: the signature gate -/

/-- C4 counterexample: the empty input's first 8 bytes are not the magic
sequence, yet `ParsePng` fails with the propagated end-of-stream I/O error
from the signature `Read`, not with the bad-signature error. -/
theorem c4_signature_gate_counterexample :
    (([] : List Byte).take 8 ≠ pngHeaderBytes) ∧ ParsePng [] = .fail .ioEOF ∧
      (GoRes.fail GoErr.ioEOF : GoRes Png) ≠ .fail GoErr.invalidPng := by
  refine ⟨by decide, rfl, ?_⟩
  intro h
  injection h with h'
  cases h'

/-- C4 (amended): every *nonempty* input whose first 8 bytes are not exactly
the magic sequence fails with the bad-signature error (`"invalid png"`)
before any record is read — the result does not depend on the bytes after
the first 8.  (The empty input instead propagates the end-of-stream error,
see the counterexample.) -/
theorem c4_signature_gate :
    (∀ pre rest : List Byte, pre.length = 8 → pre ≠ pngHeaderBytes →
      ParsePng (pre ++ rest) = .fail .invalidPng) ∧
    (∀ input : List Byte, input ≠ [] → input.length < 8 →
      ParsePng input = .fail .invalidPng) := by
  constructor
  · intro pre rest h8 hbad
    have hne : (pre ++ rest) ≠ [] := by
      intro hcon
      have := congrArg List.length hcon
      simp [h8] at this
    rw [ParsePng]
    have hbuf : readBuf (pre ++ rest) 8 = .ok (pre, 8, rest) := by
      unfold readBuf
      rw [if_neg (by simpa [List.isEmpty_iff] using hne)]
      have hlen : (pre ++ rest).length = 8 + rest.length := by simp [h8]
      have htake : (pre ++ rest).take 8 = pre := by
        rw [List.take_append_eq_append_take, List.take_of_length_le (le_of_eq h8),
          h8]
        simp
      have hdrop : (pre ++ rest).drop 8 = rest := by
        rw [List.drop_append_eq_append_drop, List.drop_of_length_le (le_of_eq h8), h8]
        simp
      rw [htake, hdrop, hlen]
      norm_num
    rw [hbuf, GoRes.bind_ok]
    dsimp only
    rw [if_pos (Or.inr hbad)]
  · intro input hne hlen
    rw [ParsePng]
    have hbuf : readBuf input 8 =
        .ok (input.take 8 ++ List.replicate (8 - input.length) 0, min 8 input.length,
          input.drop 8) := by
      unfold readBuf
      rw [if_neg (by simpa [List.isEmpty_iff] using hne)]
    rw [hbuf, GoRes.bind_ok]
    dsimp only
    rw [if_pos (Or.inl (by omega))]

theorem c4_signature_gate_witness :
    ParsePng ([0, 0, 0, 0, 0, 0, 0, 0] ++ [1, 2, 3]) = .fail .invalidPng ∧
      ParsePng [137] = .fail .invalidPng :=
  ⟨c4_signature_gate.1 [0, 0, 0, 0, 0, 0, 0, 0] [1, 2, 3] (by decide) (by decide),
   c4_signature_gate.2 [137] (by decide) (by decide)⟩

/-! ## C5: short reads in record framing -/

def c5Body2 : List Byte := [0, 0, 0, 0] ++ IENDChunk ++ [170]

def c5Body1 : List Byte := ([0, 0, 0, 1] ++ IDATChunk ++ [7] ++ [0, 0, 0, 0]) ++ c5Body2

def c5Body : List Byte :=
  ([0, 0, 0, 13] ++ IHDRChunk ++ [0, 0, 0, 1, 0, 0, 0, 1, 8, 0, 0, 0, 0] ++ [0, 0, 0, 0]) ++
  c5Body1

/-- The stream `demoInput` with the terminal record's checksum cut down to a single
byte `170`: the stream ends three bytes before the record is complete. -/
def c5Input : List Byte := pngHeaderBytes ++ c5Body

theorem readChunk_c5Body : readChunk c5Body = .ok (ihdrChunk, c5Body1) := by
  simp [readChunk, readBuf, GoRes.bind, beUint32, c5Body, c5Body1, c5Body2, IHDRChunk,
    IDATChunk, IENDChunk, ihdrChunk]

theorem readChunk_c5Body1 : readChunk c5Body1 = .ok (idatChunk, c5Body2) := by
  simp [readChunk, readBuf, GoRes.bind, beUint32, c5Body1, c5Body2, IDATChunk, IENDChunk,
    idatChunk]

/-- The framing gap itself: on the last record the checksum `Read` obtains
only one of four bytes, yet `readChunk` succeeds, returning the checksum
buffer padded with the zeros `make` put there. -/
theorem readChunk_c5Body2 : readChunk c5Body2 = .ok (iendChunkC [170, 0, 0, 0], []) := by
  simp [readChunk, readBuf, GoRes.bind, beUint32, c5Body2, IENDChunk, iendChunkC]

theorem segment_c5 : segmentChunks c5Body [] = .ok (demoPoolC [170, 0, 0, 0]) := by
  rw [segmentChunks_eq, readChunk_c5Body]
  norm_num [ihdrChunk, IHDRChunk, IENDChunk]
  rw [segmentChunks_eq, readChunk_c5Body1]
  norm_num [idatChunk, IDATChunk, IENDChunk]
  rw [segmentChunks_eq, readChunk_c5Body2]
  norm_num [ihdrChunk, idatChunk, iendChunkC, IHDRChunk, IDATChunk, IENDChunk, demoPoolC]

/-- C5 refutation by evaluation: the stream `c5Input` ends before the
terminal record is complete (its checksum field has 1 of 4 bytes), yet
`readChunk` treats the short read on the checksum as complete and `ParsePng`
returns a fully successful container — there is no truncation error.  The
specification's §4.2/§9 flag exactly this reference behavior (partial reads
treated as complete) as a correctness gap in the code. -/
theorem c5_short_read_tolerated :
    readChunk c5Body2 = .ok (iendChunkC [170, 0, 0, 0], []) ∧
      ParsePng c5Input = .ok demoPng := by
  refine ⟨readChunk_c5Body2, ?_⟩
  rw [ParsePng]
  have h8 : readBuf c5Input 8 = .ok (pngHeaderBytes, 8, c5Body) := by
    simp [readBuf, c5Input, c5Body, c5Body1, c5Body2, pngHeaderBytes, IHDRChunk, IDATChunk,
      IENDChunk]
  rw [h8, GoRes.bind_ok]
  norm_num
  rw [segment_c5, GoRes.bind_ok]
  have h0 : ({ chunks := demoPoolC [170, 0, 0, 0] } : Png) = demoP0C [170, 0, 0, 0] := rfl
  rw [h0, parseBaseChunk_demo]

/-! ## C7: the optional-kind claims -/

def bkgdChunk : chunk :=
  { len := [0, 0, 0, 1], code := BKGDChunk, data := [0], crc := [0, 0, 0, 0] }

def c7Pool : List (Option chunk) :=
  [some ihdrChunk, some idatChunk, some bkgdChunk, some iendChunk]

def c7P0 : Png := { chunks := c7Pool }

def c7P1 : Png :=
  { IHDR := some demoIHDRv, chunks := [some idatChunk, some bkgdChunk, some iendChunk] }

def c7P2 : Png :=
  { IHDR := some demoIHDRv
    IDATs := [demoIDATv]
    chunks := [some bkgdChunk, some iendChunk] }

theorem stepIHDR_c7 : stepIHDR c7P0 = .ok c7P1 := by
  simp [stepIHDR, claimTyped, claimScan, IHDRv.Parse, c7P0, c7P1, c7Pool, ihdrChunk,
    idatChunk, bkgdChunk, iendChunk, iendChunkC, IHDRChunk, IDATChunk, BKGDChunk, IENDChunk,
    beUint32, demoIHDRv]

theorem claimLoop_IDAT_c7 :
    claimLoop IDATChunk IDATv.Parse [some idatChunk, some bkgdChunk, some iendChunk] =
      .ok ([demoIDATv], [some bkgdChunk, some iendChunk]) := by
  have h1 : claimTyped IDATChunk IDATv.Parse
      [some idatChunk, some bkgdChunk, some iendChunk] =
      .ok (demoIDATv, [some bkgdChunk, some iendChunk]) := by
    simp [claimTyped, claimScan, IDATv.Parse, idatChunk, bkgdChunk, iendChunk, iendChunkC,
      IDATChunk, BKGDChunk, IENDChunk, beUint32, demoIDATv]
  have h2 : claimTyped IDATChunk IDATv.Parse [some bkgdChunk, some iendChunk] =
      .fail .chunkNotFound := by
    simp [claimTyped, claimScan, bkgdChunk, iendChunk, iendChunkC, IDATChunk, BKGDChunk,
      IENDChunk]
  rw [claimLoop_eq, h1]
  norm_num
  rw [claimLoop_eq, h2]

theorem stepIDATs_c7 : stepIDATs c7P1 = .ok c7P2 := by
  rw [stepIDATs, c7P1]
  norm_num [claimLoop_IDAT_c7]
  norm_num [c7P2, demoIDATv]

theorem stepPLTE_c7 : stepPLTE c7P2 = .ok c7P2 := by
  simp [stepPLTE, claimTyped, claimScan, c7P2, bkgdChunk, iendChunk, iendChunkC, PLTEChunk,
    BKGDChunk, IENDChunk]

/-- The `bKGD` claim finds the record and invokes the stub parse, which
panics. -/
theorem stepBKGD_c7 : stepBKGD c7P2 = .panicked "implement me" := by
  simp [stepBKGD, claimTyped, claimScan, BKGDv.Parse, c7P2, bkgdChunk, iendChunk, iendChunkC,
    BKGDChunk, IENDChunk]

/-- C7 refutation by evaluation: on a pool whose records are all well-formed
and which contains a `bKGD` record, the fixed plan does not populate the
background field — it panics inside the stub `BKGD.Parse`
(`panic("implement me")`), because the background, chromaticity, gamma,
histogram, significant-bits and transparency decoders are unimplemented
stubs.  When no such record is present the same plan succeeds
(`parseBaseChunk_demo`), so absence is indeed not an error; presence is the
code bug. -/
theorem c7_optional_kind_panics :
    parseBaseChunk c7P0 = .panicked "implement me" ∧
      parseBaseChunk (demoP0C [0, 0, 0, 0]) = .ok demoPng := by
  constructor
  · rw [parseBaseChunk, stepIHDR_c7, GoRes.bind_ok, stepIDATs_c7, GoRes.bind_ok,
      stepPLTE_c7, GoRes.bind_ok, stepBKGD_c7]
    simp
  · exact parseBaseChunk_demo [0, 0, 0, 0]

/-! ## C3: missing mandatory records -/

/-- Does a pool entry hold a record with the given tag? -/
def isMatch (name : ChunkName) : Option chunk → Bool
  | some c => decide (c.code = name)
  | none => false

/-- A pool with no record of the tag makes the scan fall through. -/
theorem claimScan_eq_none {name : ChunkName} {parse : chunk → GoRes α}
    {pool : List (Option chunk)} (h : pool.countP (isMatch name) = 0) :
    claimScan name parse pool = none := by
  induction pool with
  | nil => rfl
  | cons o rest ih =>
    rw [List.countP_cons] at h
    cases o with
    | none =>
      rw [claimScan, ih (by omega)]
    | some c =>
      have hc : ¬ c.code = name := by
        intro hcon
        simp [isMatch, hcon] at h
      rw [claimScan, if_neg hc, ih (by omega)]

theorem claimTyped_notFound {name : ChunkName} {parse : chunk → GoRes α}
    {pool : List (Option chunk)} (h : pool.countP (isMatch name) = 0) :
    claimTyped name parse pool = .fail .chunkNotFound := by
  rw [claimTyped, claimScan_eq_none h]

/-- A successful scan removes one element: the new pool is a sublist. -/
theorem claimScan_ok_sublist {name : ChunkName} {parse : chunk → GoRes α}
    {pool pool' : List (Option chunk)} {a : α}
    (h : claimScan name parse pool = some (.ok (a, pool'))) :
    List.Sublist pool' pool := by
  induction pool generalizing pool' with
  | nil => cases h
  | cons o rest ih =>
    cases o with
    | none =>
      rw [claimScan] at h
      rcases hrec : claimScan name parse rest with _ | r <;> rw [hrec] at h
      · cases h
      · rcases r with b | e | m
        · obtain ⟨b1, b2⟩ := b
          cases h
          exact (ih hrec).cons₂ none
        · cases h
        · cases h
    | some c =>
      rw [claimScan] at h
      by_cases hc : c.code = name
      · rw [if_pos hc] at h
        rcases hp : parse c with b | e | m <;> rw [hp] at h <;> cases h
        exact List.sublist_cons_self _ _
      · rw [if_neg hc] at h
        rcases hrec : claimScan name parse rest with _ | r <;> rw [hrec] at h
        · cases h
        · rcases r with b | e | m
          · obtain ⟨b1, b2⟩ := b
            cases h
            exact (ih hrec).cons₂ (some c)
          · cases h
          · cases h

theorem claimTyped_ok_sublist {name : ChunkName} {parse : chunk → GoRes α}
    {pool pool' : List (Option chunk)} {a : α}
    (h : claimTyped name parse pool = .ok (a, pool')) :
    List.Sublist pool' pool := by
  unfold claimTyped at h
  rcases hscan : claimScan name parse pool with _ | r <;> rw [hscan] at h
  · cases h
  · cases h
    exact claimScan_ok_sublist hscan

/-- C3: a pool whose header claim succeeds but which holds no image-data
record fails the plan with the `"no IDAT found"` error; a pool holding no
header record at all fails the plan with the surfaced chunk-not-found error
(the code's realisation of the missing-header failure), whatever the other
records are. -/
theorem c3_mandatory_invariants :
    (∀ (p : Png) (v : IHDRv) (pool₁ : List (Option chunk)),
      claimTyped IHDRChunk IHDRv.Parse p.chunks = .ok (v, pool₁) →
      p.chunks.countP (isMatch IDATChunk) = 0 →
      parseBaseChunk p = .fail .noIDAT) ∧
    (∀ p : Png, p.chunks.countP (isMatch IHDRChunk) = 0 →
      parseBaseChunk p = .fail .chunkNotFound) := by
  constructor
  · intro p v pool₁ hhdr hidat
    have hstep : stepIHDR p = .ok { p with IHDR := some v, chunks := pool₁ } := by
      rw [stepIHDR, hhdr]
    have hsub : List.Sublist pool₁ p.chunks := claimTyped_ok_sublist hhdr
    have hcnt : pool₁.countP (isMatch IDATChunk) = 0 :=
      Nat.le_zero.mp (hidat ▸ hsub.countP_le (isMatch IDATChunk))
    have hloop : claimLoop IDATChunk IDATv.Parse pool₁ = .ok ([], pool₁) := by
      rw [claimLoop_eq, claimTyped_notFound hcnt]
    have hstep2 : stepIDATs { p with IHDR := some v, chunks := pool₁ } = .fail .noIDAT := by
      rw [stepIDATs]
      dsimp only
      rw [hloop]
      simp
    rw [parseBaseChunk, hstep, GoRes.bind_ok, hstep2, GoRes.bind_fail]
  · intro p hhdr
    have hstep : stepIHDR p = .fail .chunkNotFound := by
      rw [stepIHDR, claimTyped_notFound hhdr]
    rw [parseBaseChunk, hstep, GoRes.bind_fail]

theorem c3_mandatory_invariants_witness :
    parseBaseChunk { chunks := [some ihdrChunk, some iendChunk] } = .fail .noIDAT ∧
      parseBaseChunk { chunks := [some idatChunk, some iendChunk] } =
        .fail .chunkNotFound :=
  ⟨c3_mandatory_invariants.1 { chunks := [some ihdrChunk, some iendChunk] } demoIHDRv
      [some iendChunk]
      (by simp [claimTyped, claimScan, IHDRv.Parse, ihdrChunk, iendChunk, iendChunkC,
        IHDRChunk, IENDChunk, beUint32, demoIHDRv])
      (by decide),
   c3_mandatory_invariants.2 { chunks := [some idatChunk, some iendChunk] } (by decide)⟩

/-! ## C6: claim behaviour at the first matching record -/

/-- Characterisation of the scan at the first matching index `i`: the loop
invokes the decoder on exactly that record; a parse error or panic is
returned with nothing removed, and a parse success removes exactly index
`i`. -/
theorem claimScan_first_match {name : ChunkName} {parse : chunk → GoRes α}
    {pool : List (Option chunk)} {i : Nat} {ch : chunk}
    (hget : pool[i]? = some (some ch)) (hcode : ch.code = name)
    (hmin : ∀ j, j < i → isMatch name (pool.getD j none) = false) :
    claimScan name parse pool =
      some (match parse ch with
            | .ok a => .ok (a, pool.eraseIdx i)
            | .fail e => .fail e
            | .panicked m => .panicked m) := by
  induction pool generalizing i with
  | nil => simp at hget
  | cons o rest ih =>
    cases i with
    | zero =>
      have ho : o = some ch := by simpa using hget
      subst ho
      rw [claimScan, if_pos hcode]
      rcases hp : parse ch with a | e | m <;> simp [List.eraseIdx]
    | succ n =>
      have h0 : isMatch name o = false := by
        have := hmin 0 (Nat.succ_pos n)
        simpa using this
      have hget' : rest[n]? = some (some ch) := by simpa using hget
      have hmin' : ∀ j, j < n → isMatch name (rest.getD j none) = false := by
        intro j hj
        have := hmin (j + 1) (Nat.succ_lt_succ hj)
        simpa using this
      have hrec := ih hget' hmin'
      cases o with
      | none =>
        rw [claimScan, hrec]
        rcases hp : parse ch with a | e | m <;> simp [hp, List.eraseIdx]
      | some c =>
        have hc : ¬ c.code = name := by
          simpa [isMatch] using h0
        rw [claimScan, if_neg hc, hrec]
        rcases hp : parse ch with a | e | m <;> simp [hp, List.eraseIdx]

/-- C6: a claim call that finds a matching record whose parse fails
propagates the decode error and leaves the receiver — in particular the pool
— completely unchanged, so the record remains claimable later; a claim call
whose parse succeeds removes exactly that one record (`eraseIdx` at the
first matching position) and touches nothing else. -/
theorem c6_parse_failure_keeps_record (p : Png) (cp : ChunkParse) (ns : List Bool)
    (i : Nat) (ch : chunk)
    (hget : p.chunks[i]? = some (some ch))
    (hcode : ch.code = cp.name)
    (hmin : ∀ j, j < i → isMatch cp.name (p.chunks.getD j none) = false) :
    (∀ e, cp.parse ch = .fail e → p.ParseChunk cp ns = (.fail e, p)) ∧
    (cp.parse ch = .ok () → p.ParseChunk cp ns =
      (.ok (), { p with chunks := p.chunks.eraseIdx i })) := by
  have hscan := @claimScan_first_match Unit cp.name cp.parse p.chunks i ch hget hcode hmin
  constructor
  · intro e hp
    rw [hp] at hscan
    rw [Png.ParseChunk, hscan]
  · intro hp
    rw [hp] at hscan
    rw [Png.ParseChunk, hscan]

def textChunk6 : chunk :=
  { len := [0, 0, 0, 3], code := TEXTChunk, data := [97, 0, 98], crc := [0, 0, 0, 0] }

def c6Pool : List (Option chunk) := [some idatChunk, some textChunk6]

/-- A decoder for `tEXt` whose parse always fails. -/
def failTextCP : ChunkParse := { name := TEXTChunk, parse := fun _ => .fail .invalidText }

/-- A decoder for `tEXt` whose parse always succeeds. -/
def okTextCP : ChunkParse := { name := TEXTChunk, parse := fun _ => .ok () }

theorem c6_parse_failure_keeps_record_witness :
    Png.ParseChunk { chunks := c6Pool } failTextCP [] =
      (.fail .invalidText, { chunks := c6Pool }) ∧
    Png.ParseChunk { chunks := c6Pool } okTextCP [] =
      (.ok (), { chunks := c6Pool.eraseIdx 1 }) :=
  ⟨(c6_parse_failure_keeps_record { chunks := c6Pool } failTextCP [] 1 textChunk6
      (by decide) (by decide) (by decide)).1 .invalidText rfl,
   (c6_parse_failure_keeps_record { chunks := c6Pool } okTextCP [] 1 textChunk6
      (by decide) (by decide) (by decide)).2 rfl⟩

/-! ## C1: exactly-once claim of repeated tags -/

/-- Remove the first record matching `name` (what a successful claim does to
the pool). -/
def eraseFirst (name : ChunkName) : List (Option chunk) → List (Option chunk)
  | [] => []
  | o :: rest => if isMatch name o then rest else o :: eraseFirst name rest

/-- Iterated removal: `k` repeated claims' worth of removals. -/
def eraseFirstN (name : ChunkName) : Nat → List (Option chunk) → List (Option chunk)
  | 0, l => l
  | k + 1, l => eraseFirstN name k (eraseFirst name l)

/-- Call `ParseChunk(cp, true)` `k` times in a loop, collecting the returned
errors in order and threading the receiver. -/
def iterateClaim (cp : ChunkParse) : Nat → Png → List (GoRes Unit) × Png
  | 0, p => ([], p)
  | k + 1, p =>
    let r := p.ParseChunk cp [true]
    let rs := iterateClaim cp k r.2
    (r.1 :: rs.1, rs.2)

theorem claimScan_found_ok {name : ChunkName} {parse : chunk → GoRes Unit}
    {pool : List (Option chunk)}
    (hsucc : ∀ c : chunk, some c ∈ pool → c.code = name → parse c = .ok ())
    (hpos : 0 < pool.countP (isMatch name)) :
    claimScan name parse pool = some (.ok ((), eraseFirst name pool)) := by
  induction pool with
  | nil => simp at hpos
  | cons o rest ih =>
    rw [List.countP_cons] at hpos
    cases o with
    | none =>
      have hrec := ih (fun c hc => hsucc c (List.mem_cons_of_mem none hc))
        (by simpa [isMatch] using hpos)
      rw [claimScan, hrec, eraseFirst]
      simp [isMatch]
    | some c =>
      by_cases hc : c.code = name
      · have hp : parse c = .ok () := hsucc c (List.mem_cons_self _ _) hc
        rw [claimScan, if_pos hc, hp, eraseFirst]
        simp [isMatch, hc]
      · have hmf : isMatch name (some c) = false := by simp [isMatch, hc]
        have hrec := ih (fun d hcm => hsucc d (List.mem_cons_of_mem (some c) hcm))
          (by simpa [hmf] using hpos)
        rw [claimScan, if_neg hc, hrec, eraseFirst]
        simp [hmf]

/-- A found claim with a succeeding decoder: success, and the pool loses its
first matching record. -/
theorem ParseChunk_found {p : Png} {cp : ChunkParse}
    (hsucc : ∀ c : chunk, some c ∈ p.chunks → c.code = cp.name → cp.parse c = .ok ())
    (hpos : 0 < p.chunks.countP (isMatch cp.name)) :
    p.ParseChunk cp [true] = (.ok (), { p with chunks := eraseFirst cp.name p.chunks }) := by
  rw [Png.ParseChunk, claimScan_found_ok hsucc hpos]

/-- A missed claim with retention disabled: the not-found error, no change. -/
theorem ParseChunk_notFound {p : Png} {cp : ChunkParse}
    (h : p.chunks.countP (isMatch cp.name) = 0) :
    p.ParseChunk cp [true] = (.fail .chunkNotFound, p) := by
  rw [Png.ParseChunk, claimScan_eq_none h]
  simp [notSaveFlag]

theorem eraseFirst_countP {name : ChunkName} {pool : List (Option chunk)}
    (hpos : 0 < pool.countP (isMatch name)) :
    (eraseFirst name pool).countP (isMatch name) = pool.countP (isMatch name) - 1 := by
  induction pool with
  | nil => simp at hpos
  | cons o rest ih =>
    by_cases hm : isMatch name o
    · rw [eraseFirst, if_pos hm, List.countP_cons, hm]
      simp
    · have hmf : isMatch name o = false := by simpa using hm
      have hpos' : 0 < rest.countP (isMatch name) := by
        rw [List.countP_cons, hmf] at hpos
        simpa using hpos
      rw [eraseFirst, if_neg hm, List.countP_cons, List.countP_cons, hmf, ih hpos']
      omega

theorem eraseFirst_filter {name : ChunkName} (pool : List (Option chunk)) :
    (eraseFirst name pool).filter (fun o => ! isMatch name o) =
      pool.filter (fun o => ! isMatch name o) := by
  induction pool with
  | nil => rfl
  | cons o rest ih =>
    by_cases hm : isMatch name o
    · rw [eraseFirst, if_pos hm, List.filter_cons]
      simp [hm]
    · rw [eraseFirst, if_neg hm, List.filter_cons, List.filter_cons, ih]

theorem eraseFirst_mem {name : ChunkName} {pool : List (Option chunk)}
    {o : Option chunk} (h : o ∈ eraseFirst name pool) : o ∈ pool := by
  induction pool with
  | nil => simpa [eraseFirst] using h
  | cons o' rest ih =>
    rw [eraseFirst] at h
    by_cases hm : isMatch name o'
    · rw [if_pos hm] at h
      exact List.mem_cons_of_mem o' h
    · rw [if_neg hm] at h
      rcases List.mem_cons.mp h with h1 | h2
      · exact h1 ▸ List.mem_cons_self o' rest
      · exact List.mem_cons_of_mem o' (ih h2)

theorem eraseFirstN_filter {name : ChunkName} (k : Nat) (pool : List (Option chunk)) :
    (eraseFirstN name k pool).filter (fun o => ! isMatch name o) =
      pool.filter (fun o => ! isMatch name o) := by
  induction k generalizing pool with
  | zero => rfl
  | succ n ih => rw [eraseFirstN, ih, eraseFirst_filter]

theorem eraseFirstN_count_eq_filter {name : ChunkName} :
    ∀ (n : Nat) (pool : List (Option chunk)), pool.countP (isMatch name) = n →
      eraseFirstN name n pool = pool.filter (fun o => ! isMatch name o) := by
  intro n
  induction n with
  | zero =>
    intro pool h
    rw [eraseFirstN]
    symm
    rw [List.filter_eq_self]
    intro o ho
    have := List.countP_eq_zero.mp h o ho
    simpa using this
  | succ m ih =>
    intro pool h
    rw [eraseFirstN, ih (eraseFirst name pool) (by rw [eraseFirst_countP (by omega)]; omega),
      eraseFirst_filter]

/-- Main induction: `k ≤ N` claims all succeed, and the receiver after them
is the original with the first `k` matching records removed. -/
theorem iterateClaim_spec {cp : ChunkParse} :
    ∀ (k : Nat) (p : Png),
      (∀ c : chunk, some c ∈ p.chunks → c.code = cp.name → cp.parse c = .ok ()) →
      k ≤ p.chunks.countP (isMatch cp.name) →
      iterateClaim cp k p =
        (List.replicate k (.ok ()), { p with chunks := eraseFirstN cp.name k p.chunks }) := by
  intro k
  induction k with
  | zero =>
    intro p hsucc hle
    rw [iterateClaim, eraseFirstN]
    rfl
  | succ n ih =>
    intro p hsucc hle
    have hpos : 0 < p.chunks.countP (isMatch cp.name) := by omega
    have hfound := ParseChunk_found hsucc hpos
    set p' : Png := { p with chunks := eraseFirst cp.name p.chunks } with hp'
    have hsucc' : ∀ c : chunk, some c ∈ p'.chunks → c.code = cp.name → cp.parse c = .ok () :=
      fun c hc => hsucc c (eraseFirst_mem hc)
    have hle' : n ≤ p'.chunks.countP (isMatch cp.name) := by
      have := @eraseFirst_countP cp.name p.chunks hpos
      simp only [hp']
      omega
    have hrec := ih p' hsucc' hle'
    rw [iterateClaim, hfound]
    simp only [hrec]
    rw [List.replicate_succ]
    simp [hp', eraseFirstN]

/-- C1: on a pool holding `N` records of the decoder's tag (each of which the
decoder parses successfully), `N` claim calls in a loop all succeed, each
consuming the first remaining record of that tag — arrival order — while the
call after them misses: it returns the not-found error and changes nothing.
Records of other tags are never removed and keep their relative order: the
non-matching subsequence of the pool is the same after every call. -/
theorem c1_exactly_once_claim (p : Png) (cp : ChunkParse)
    (hsucc : ∀ c : chunk, some c ∈ p.chunks → c.code = cp.name → cp.parse c = .ok ()) :
    (iterateClaim cp (p.chunks.countP (isMatch cp.name)) p).1 =
      List.replicate (p.chunks.countP (isMatch cp.name)) (.ok ()) ∧
    (iterateClaim cp (p.chunks.countP (isMatch cp.name)) p).2.ParseChunk cp [true] =
      (.fail .chunkNotFound, (iterateClaim cp (p.chunks.countP (isMatch cp.name)) p).2) ∧
    (iterateClaim cp (p.chunks.countP (isMatch cp.name)) p).2.chunks =
      p.chunks.filter (fun o => ! isMatch cp.name o) ∧
    (∀ k, k ≤ p.chunks.countP (isMatch cp.name) →
      (iterateClaim cp k p).2.chunks = eraseFirstN cp.name k p.chunks ∧
      (iterateClaim cp k p).2.chunks.filter (fun o => ! isMatch cp.name o) =
        p.chunks.filter (fun o => ! isMatch cp.name o)) := by
  have hN := iterateClaim_spec (p.chunks.countP (isMatch cp.name)) p hsucc le_rfl
  have hchunks : (iterateClaim cp (p.chunks.countP (isMatch cp.name)) p).2.chunks =
      p.chunks.filter (fun o => ! isMatch cp.name o) := by
    rw [hN]
    exact eraseFirstN_count_eq_filter _ _ rfl
  refine ⟨by rw [hN], ?_, hchunks, ?_⟩
  · apply ParseChunk_notFound
    rw [hchunks]
    rw [List.countP_eq_zero]
    intro o ho
    have := List.of_mem_filter ho
    simpa using this
  · intro k hk
    have hkspec := iterateClaim_spec k p hsucc hk
    refine ⟨by rw [hkspec], ?_⟩
    rw [hkspec]
    exact eraseFirstN_filter k p.chunks

/-- A decoder for `IDAT` whose parse always succeeds. -/
def okIdatCP : ChunkParse := { name := IDATChunk, parse := fun _ => .ok () }

def c1Pool : List (Option chunk) :=
  [some idatChunk, some textChunk6, some idatChunk, some iendChunk]

theorem c1_exactly_once_claim_witness :
    (iterateClaim okIdatCP 2 { chunks := c1Pool }).1 = List.replicate 2 (.ok ()) ∧
      (iterateClaim okIdatCP 2 { chunks := c1Pool }).2.chunks =
        c1Pool.filter (fun o => ! isMatch IDATChunk o) := by
  have h := c1_exactly_once_claim { chunks := c1Pool } okIdatCP (fun c _ _ => rfl)
  exact ⟨h.1, h.2.2.1⟩

/-! ## C9: invariance under tag-order-preserving reorderings -/

/-- The subsequence of records with a given tag, in pool order.  Two pools
related by a reordering that preserves the relative order of same-tag
records have the same `tagMatches` at every tag. -/
def tagMatches (name : ChunkName) (pool : List (Option chunk)) : List chunk :=
  pool.filterMap fun o =>
    match o with
    | some c => if c.code = name then some c else none
    | none => none

@[simp] theorem tagMatches_nil (name : ChunkName) : tagMatches name [] = [] := rfl

@[simp] theorem tagMatches_cons_none (name : ChunkName) (rest : List (Option chunk)) :
    tagMatches name (none :: rest) = tagMatches name rest := rfl

@[simp] theorem tagMatches_cons_some (name : ChunkName) (c : chunk)
    (rest : List (Option chunk)) :
    tagMatches name (some c :: rest) =
      if c.code = name then c :: tagMatches name rest else tagMatches name rest := by
  rw [tagMatches, List.filterMap_cons, tagMatches]
  by_cases hc : c.code = name
  · rw [if_pos hc]
    simp [hc]
  · rw [if_neg hc]
    simp [hc]

/-- Per-tag equality of two pools. -/
def PoolEquiv (P Q : List (Option chunk)) : Prop :=
  ∀ name, tagMatches name P = tagMatches name Q

theorem claimScan_none_of_tagMatches {name : ChunkName} {parse : chunk → GoRes α}
    {pool : List (Option chunk)} (h : tagMatches name pool = []) :
    claimScan name parse pool = none := by
  induction pool with
  | nil => rfl
  | cons o rest ih =>
    cases o with
    | none =>
      rw [claimScan, ih (by simpa using h)]
    | some c =>
      rw [tagMatches_cons_some] at h
      by_cases hc : c.code = name
      · rw [if_pos hc] at h
        cases h
      · rw [if_neg hc] at h
        rw [claimScan, if_neg hc, ih h]

/-- The scan hits the head of `tagMatches`: the outcome is the decoder on
that record; on success the new pool drops exactly it, and the other tags'
subsequences survive intact. -/
theorem claimScan_cons_of_tagMatches {name : ChunkName} {parse : chunk → GoRes α}
    {pool : List (Option chunk)} {c : chunk} {cs : List chunk}
    (h : tagMatches name pool = c :: cs) :
    ∃ pool',
      claimScan name parse pool =
        some (match parse c with
              | .ok a => .ok (a, pool')
              | .fail e => .fail e
              | .panicked m => .panicked m) ∧
      tagMatches name pool' = cs ∧
      ∀ n', n' ≠ name → tagMatches n' pool' = tagMatches n' pool := by
  induction pool with
  | nil => cases h
  | cons o rest ih =>
    cases o with
    | none =>
      obtain ⟨pool₀, hs, ht, ho⟩ := ih (by simpa using h)
      refine ⟨none :: pool₀, ?_, by simpa using ht, ?_⟩
      · rw [claimScan, hs]
        rcases hp : parse c with a | e | m <;> simp
      · intro n' hn
        simpa using ho n' hn
    | some d =>
      rw [tagMatches_cons_some] at h
      by_cases hd : d.code = name
      · rw [if_pos hd] at h
        obtain ⟨hdc, hcs⟩ := List.cons.injEq .. ▸ h
        subst hdc
        refine ⟨rest, ?_, hcs, ?_⟩
        · rw [claimScan, if_pos hd]
          rcases hp : parse d with a | e | m <;> simp
        · intro n' hn
          rw [tagMatches_cons_some, if_neg (by rw [hd]; exact fun hcon => hn hcon.symm)]
      · rw [if_neg hd] at h
        obtain ⟨pool₀, hs, ht, ho⟩ := ih h
        refine ⟨some d :: pool₀, ?_, ?_, ?_⟩
        · rw [claimScan, if_neg hd, hs]
          rcases hp : parse c with a | e | m <;> simp
        · rw [tagMatches_cons_some, if_neg hd, ht]
        · intro n' hn
          rw [tagMatches_cons_some, tagMatches_cons_some, ho n' hn]

/-- Relation between two claim outcomes over per-tag-equal pools. -/
def ResRel (r s : GoRes (α × List (Option chunk))) : Prop :=
  match r, s with
  | .ok (a, P), .ok (b, Q) => a = b ∧ PoolEquiv P Q
  | .fail e, .fail e' => e = e'
  | .panicked m, .panicked m' => m = m'
  | _, _ => False

/-- Per-tag-equal pools give related `claimTyped` outcomes. -/
theorem claimTyped_rel {P Q : List (Option chunk)} (h : PoolEquiv P Q)
    (name : ChunkName) (parse : chunk → GoRes α) :
    ResRel (claimTyped name parse P) (claimTyped name parse Q) := by
  rcases htm : tagMatches name P with _ | ⟨c, cs⟩
  · have htmQ : tagMatches name Q = [] := by rw [← h name, htm]
    rw [claimTyped, claimScan_none_of_tagMatches htm,
      claimTyped, claimScan_none_of_tagMatches htmQ]
    simp [ResRel]
  · obtain ⟨P', hsP, htP, hoP⟩ := @claimScan_cons_of_tagMatches α name parse P c _ htm
    obtain ⟨Q', hsQ, htQ, hoQ⟩ :=
      @claimScan_cons_of_tagMatches α name parse Q c _ (by rw [← h name, htm])
    rw [claimTyped, hsP, claimTyped, hsQ]
    rcases hp : parse c with a | e | m
    · refine ⟨rfl, ?_⟩
      intro n'
      by_cases hn : n' = name
      · rw [hn, htP, htQ]
      · rw [hoP n' hn, hoQ n' hn, h n']
    · exact rfl
    · exact rfl

/-- Per-tag-equal pools give related `claimLoop` outcomes: the same decoded
values in the same order, and per-tag-equal residual pools. -/
theorem claimLoop_rel {name : ChunkName} {parse : chunk → GoRes α} :
    ∀ (ms : List chunk) (P Q : List (Option chunk)), PoolEquiv P Q →
      tagMatches name P = ms →
      ResRel (claimLoop name parse P) (claimLoop name parse Q) := by
  intro ms
  induction ms with
  | nil =>
    intro P Q h htm
    have h1 : claimTyped name parse P = .fail .chunkNotFound := by
      rw [claimTyped, claimScan_none_of_tagMatches htm]
    have h2 : claimTyped name parse Q = .fail .chunkNotFound := by
      rw [claimTyped, claimScan_none_of_tagMatches (by rw [← h name, htm])]
    rw [claimLoop_eq, h1, claimLoop_eq, h2]
    exact ⟨rfl, h⟩
  | cons c cs ih =>
    intro P Q h htm
    obtain ⟨P', hsP, htP, hoP⟩ := @claimScan_cons_of_tagMatches α name parse P c _ htm
    obtain ⟨Q', hsQ, htQ, hoQ⟩ :=
      @claimScan_cons_of_tagMatches α name parse Q c _ (by rw [← h name, htm])
    have h1 : claimTyped name parse P =
        (match parse c with
         | .ok a => .ok (a, P')
         | .fail e => .fail e
         | .panicked m => .panicked m) := by rw [claimTyped, hsP]
    have h2 : claimTyped name parse Q =
        (match parse c with
         | .ok a => .ok (a, Q')
         | .fail e => .fail e
         | .panicked m => .panicked m) := by rw [claimTyped, hsQ]
    rcases hp : parse c with a | e | m <;> rw [hp] at h1 h2
    · have hPQ : PoolEquiv P' Q' := by
        intro n'
        by_cases hn : n' = name
        · rw [hn, htP, htQ]
        · rw [hoP n' hn, hoQ n' hn, h n']
      have hrec := ih P' Q' hPQ htP
      rw [claimLoop_eq, h1, claimLoop_eq, h2]
      dsimp only
      rcases hrP : claimLoop name parse P' with ⟨vs, PP⟩ | e | m <;>
        rcases hrQ : claimLoop name parse Q' with ⟨ws, QQ⟩ | e' | m' <;>
        rw [hrP, hrQ] at hrec <;> simp only [ResRel] at hrec <;> simp only [ResRel]
      · exact ⟨by rw [hrec.1], hrec.2⟩
      · exact hrec
      · exact hrec
    · by_cases he : e = GoErr.chunkNotFound
      · subst he
        rw [claimLoop_eq, h1, claimLoop_eq, h2]
        exact ⟨rfl, h⟩
      · rw [claimLoop_eq, h1, claimLoop_eq, h2]
        rcases e with _ | _ | _ | _ | _ | _ | _ <;> simp [ResRel] <;> simp at he
    · rw [claimLoop_eq, h1, claimLoop_eq, h2]
      exact rfl

/-- Equality of every container field except the residual pool. -/
def sameContainer (p q : Png) : Prop :=
  p.IHDR = q.IHDR ∧ p.IDATs = q.IDATs ∧ p.PLTE = q.PLTE ∧ p.BKGD = q.BKGD ∧
  p.CHRM = q.CHRM ∧ p.GAMA = q.GAMA ∧ p.HIST = q.HIST ∧ p.PHYS = q.PHYS ∧
  p.SBIT = q.SBIT ∧ p.TEXTs = q.TEXTs ∧ p.TRNS = q.TRNS ∧ p.TIME = q.TIME ∧
  p.ZTXTs = q.ZTXTs ∧ p.IEND = q.IEND ∧ p.OtherChunk = q.OtherChunk

/-- Relation between two plan outcomes: identical error or panic, or success
with equal container fields and per-tag-equal residual pools. -/
def PngResRel (r s : GoRes Png) : Prop :=
  match r, s with
  | .ok p, .ok q => sameContainer p q ∧ PoolEquiv p.chunks q.chunks
  | .fail e, .fail e' => e = e'
  | .panicked m, .panicked m' => m = m'
  | _, _ => False

theorem PngResRel_bind {r s : GoRes Png} {f g : Png → GoRes Png}
    (h : PngResRel r s)
    (hf : ∀ p q, sameContainer p q → PoolEquiv p.chunks q.chunks →
      PngResRel (f p) (g q)) :
    PngResRel (r.bind f) (s.bind g) := by
  rcases r with p | e | m <;> rcases s with q | e' | m'
  · obtain ⟨h1, h2⟩ := h
    exact hf p q h1 h2
  · exact h.elim
  · exact h.elim
  · exact h.elim
  · exact h
  · exact h.elim
  · exact h.elim
  · exact h.elim
  · exact h

theorem stepIHDR_rel {p q : Png} (hc : sameContainer p q)
    (he : PoolEquiv p.chunks q.chunks) : PngResRel (stepIHDR p) (stepIHDR q) := by
  have hrel := claimTyped_rel he IHDRChunk IHDRv.Parse
  unfold stepIHDR
  rcases hP : claimTyped IHDRChunk IHDRv.Parse p.chunks with ⟨a, P'⟩ | e | m <;>
    rcases hQ : claimTyped IHDRChunk IHDRv.Parse q.chunks with ⟨b, Q'⟩ | e' | m' <;>
    rw [hP, hQ] at hrel <;> simp only [ResRel] at hrel <;> simp only [PngResRel]
  · obtain ⟨hab, hPQ⟩ := hrel
    subst hab
    exact ⟨by simp_all [sameContainer], by simpa using hPQ⟩
  · exact hrel
  · exact hrel

theorem stepIDATs_rel {p q : Png} (hc : sameContainer p q)
    (he : PoolEquiv p.chunks q.chunks) : PngResRel (stepIDATs p) (stepIDATs q) := by
  have hrel := @claimLoop_rel IDATv IDATChunk IDATv.Parse (tagMatches IDATChunk p.chunks) p.chunks q.chunks he rfl
  unfold stepIDATs
  rcases hP : claimLoop IDATChunk IDATv.Parse p.chunks with ⟨vs, P'⟩ | e | m <;>
    rcases hQ : claimLoop IDATChunk IDATv.Parse q.chunks with ⟨ws, Q'⟩ | e' | m' <;>
    rw [hP, hQ] at hrel <;> simp only [ResRel] at hrel <;> simp only [PngResRel]
  · obtain ⟨hab, hPQ⟩ := hrel
    subst hab
    by_cases hv : vs.isEmpty
    · rw [if_pos hv, if_pos hv]
    · rw [if_neg hv, if_neg hv]
      simp only [PngResRel]
      exact ⟨by simp_all [sameContainer], by simpa using hPQ⟩
  · exact hrel
  · exact hrel

theorem stepPLTE_rel {p q : Png} (hc : sameContainer p q)
    (he : PoolEquiv p.chunks q.chunks) : PngResRel (stepPLTE p) (stepPLTE q) := by
  have hrel := claimTyped_rel he PLTEChunk PLTEv.Parse
  unfold stepPLTE
  rcases hP : claimTyped PLTEChunk PLTEv.Parse p.chunks with ⟨a, P'⟩ | e | m <;>
    rcases hQ : claimTyped PLTEChunk PLTEv.Parse q.chunks with ⟨b, Q'⟩ | e' | m' <;>
    rw [hP, hQ] at hrel <;> simp only [ResRel] at hrel <;> simp only [PngResRel]
  · obtain ⟨hab, hPQ⟩ := hrel
    subst hab
    exact ⟨by simp_all [sameContainer], by simpa using hPQ⟩
  · exact ⟨hc, he⟩
  · exact hrel

theorem stepBKGD_rel {p q : Png} (hc : sameContainer p q)
    (he : PoolEquiv p.chunks q.chunks) : PngResRel (stepBKGD p) (stepBKGD q) := by
  have hrel := claimTyped_rel he BKGDChunk BKGDv.Parse
  unfold stepBKGD
  rcases hP : claimTyped BKGDChunk BKGDv.Parse p.chunks with ⟨a, P'⟩ | e | m <;>
    rcases hQ : claimTyped BKGDChunk BKGDv.Parse q.chunks with ⟨b, Q'⟩ | e' | m' <;>
    rw [hP, hQ] at hrel <;> simp only [ResRel] at hrel <;> simp only [PngResRel]
  · obtain ⟨-, hPQ⟩ := hrel
    cases a
    cases b
    exact ⟨by simp_all [sameContainer], by simpa using hPQ⟩
  · exact ⟨hc, he⟩
  · exact hrel

theorem stepCHRM_rel {p q : Png} (hc : sameContainer p q)
    (he : PoolEquiv p.chunks q.chunks) : PngResRel (stepCHRM p) (stepCHRM q) := by
  have hrel := claimTyped_rel he CHRMChunk CHRMv.Parse
  unfold stepCHRM
  rcases hP : claimTyped CHRMChunk CHRMv.Parse p.chunks with ⟨a, P'⟩ | e | m <;>
    rcases hQ : claimTyped CHRMChunk CHRMv.Parse q.chunks with ⟨b, Q'⟩ | e' | m' <;>
    rw [hP, hQ] at hrel <;> simp only [ResRel] at hrel <;> simp only [PngResRel]
  · obtain ⟨-, hPQ⟩ := hrel
    cases a
    cases b
    exact ⟨by simp_all [sameContainer], by simpa using hPQ⟩
  · exact ⟨hc, he⟩
  · exact hrel

theorem stepGAMA_rel {p q : Png} (hc : sameContainer p q)
    (he : PoolEquiv p.chunks q.chunks) : PngResRel (stepGAMA p) (stepGAMA q) := by
  have hrel := claimTyped_rel he GAMAChunk GAMAv.Parse
  unfold stepGAMA
  rcases hP : claimTyped GAMAChunk GAMAv.Parse p.chunks with ⟨a, P'⟩ | e | m <;>
    rcases hQ : claimTyped GAMAChunk GAMAv.Parse q.chunks with ⟨b, Q'⟩ | e' | m' <;>
    rw [hP, hQ] at hrel <;> simp only [ResRel] at hrel <;> simp only [PngResRel]
  · obtain ⟨-, hPQ⟩ := hrel
    cases a
    cases b
    exact ⟨by simp_all [sameContainer], by simpa using hPQ⟩
  · exact ⟨hc, he⟩
  · exact hrel

theorem stepHIST_rel {p q : Png} (hc : sameContainer p q)
    (he : PoolEquiv p.chunks q.chunks) : PngResRel (stepHIST p) (stepHIST q) := by
  have hrel := claimTyped_rel he HISTChunk HISTv.Parse
  unfold stepHIST
  rcases hP : claimTyped HISTChunk HISTv.Parse p.chunks with ⟨a, P'⟩ | e | m <;>
    rcases hQ : claimTyped HISTChunk HISTv.Parse q.chunks with ⟨b, Q'⟩ | e' | m' <;>
    rw [hP, hQ] at hrel <;> simp only [ResRel] at hrel <;> simp only [PngResRel]
  · obtain ⟨-, hPQ⟩ := hrel
    cases a
    cases b
    exact ⟨by simp_all [sameContainer], by simpa using hPQ⟩
  · exact ⟨hc, he⟩
  · exact hrel

theorem stepPHYS_rel {p q : Png} (hc : sameContainer p q)
    (he : PoolEquiv p.chunks q.chunks) : PngResRel (stepPHYS p) (stepPHYS q) := by
  have hrel := claimTyped_rel he PHYSChunk PHYSv.Parse
  unfold stepPHYS
  rcases hP : claimTyped PHYSChunk PHYSv.Parse p.chunks with ⟨a, P'⟩ | e | m <;>
    rcases hQ : claimTyped PHYSChunk PHYSv.Parse q.chunks with ⟨b, Q'⟩ | e' | m' <;>
    rw [hP, hQ] at hrel <;> simp only [ResRel] at hrel <;> simp only [PngResRel]
  · obtain ⟨hab, hPQ⟩ := hrel
    subst hab
    exact ⟨by simp_all [sameContainer], by simpa using hPQ⟩
  · exact ⟨hc, he⟩
  · exact hrel

theorem stepSBIT_rel {p q : Png} (hc : sameContainer p q)
    (he : PoolEquiv p.chunks q.chunks) : PngResRel (stepSBIT p) (stepSBIT q) := by
  have hrel := claimTyped_rel he SBITChunk SBITv.Parse
  unfold stepSBIT
  rcases hP : claimTyped SBITChunk SBITv.Parse p.chunks with ⟨a, P'⟩ | e | m <;>
    rcases hQ : claimTyped SBITChunk SBITv.Parse q.chunks with ⟨b, Q'⟩ | e' | m' <;>
    rw [hP, hQ] at hrel <;> simp only [ResRel] at hrel <;> simp only [PngResRel]
  · obtain ⟨-, hPQ⟩ := hrel
    cases a
    cases b
    exact ⟨by simp_all [sameContainer], by simpa using hPQ⟩
  · exact ⟨hc, he⟩
  · exact hrel

theorem stepTEXTs_rel {p q : Png} (hc : sameContainer p q)
    (he : PoolEquiv p.chunks q.chunks) : PngResRel (stepTEXTs p) (stepTEXTs q) := by
  have hrel := @claimLoop_rel TEXTv TEXTChunk TEXTv.Parse (tagMatches TEXTChunk p.chunks) p.chunks q.chunks he rfl
  unfold stepTEXTs
  rcases hP : claimLoop TEXTChunk TEXTv.Parse p.chunks with ⟨vs, P'⟩ | e | m <;>
    rcases hQ : claimLoop TEXTChunk TEXTv.Parse q.chunks with ⟨ws, Q'⟩ | e' | m' <;>
    rw [hP, hQ] at hrel <;> simp only [ResRel] at hrel <;> simp only [PngResRel]
  · obtain ⟨hab, hPQ⟩ := hrel
    subst hab
    exact ⟨by simp_all [sameContainer], by simpa using hPQ⟩
  · exact hrel
  · exact hrel

theorem stepTRNS_rel {p q : Png} (hc : sameContainer p q)
    (he : PoolEquiv p.chunks q.chunks) : PngResRel (stepTRNS p) (stepTRNS q) := by
  have hrel := claimTyped_rel he TRNSChunk TRNSv.Parse
  unfold stepTRNS
  rcases hP : claimTyped TRNSChunk TRNSv.Parse p.chunks with ⟨a, P'⟩ | e | m <;>
    rcases hQ : claimTyped TRNSChunk TRNSv.Parse q.chunks with ⟨b, Q'⟩ | e' | m' <;>
    rw [hP, hQ] at hrel <;> simp only [ResRel] at hrel <;> simp only [PngResRel]
  · obtain ⟨-, hPQ⟩ := hrel
    cases a
    cases b
    exact ⟨by simp_all [sameContainer], by simpa using hPQ⟩
  · exact ⟨hc, he⟩
  · exact hrel

theorem stepTIME_rel {p q : Png} (hc : sameContainer p q)
    (he : PoolEquiv p.chunks q.chunks) : PngResRel (stepTIME p) (stepTIME q) := by
  have hrel := claimTyped_rel he TIMEChunk TIMEv.Parse
  unfold stepTIME
  rcases hP : claimTyped TIMEChunk TIMEv.Parse p.chunks with ⟨a, P'⟩ | e | m <;>
    rcases hQ : claimTyped TIMEChunk TIMEv.Parse q.chunks with ⟨b, Q'⟩ | e' | m' <;>
    rw [hP, hQ] at hrel <;> simp only [ResRel] at hrel <;> simp only [PngResRel]
  · obtain ⟨hab, hPQ⟩ := hrel
    subst hab
    exact ⟨by simp_all [sameContainer], by simpa using hPQ⟩
  · exact ⟨hc, he⟩
  · exact hrel

theorem stepZTXTs_rel {p q : Png} (hc : sameContainer p q)
    (he : PoolEquiv p.chunks q.chunks) : PngResRel (stepZTXTs p) (stepZTXTs q) := by
  have hrel := @claimLoop_rel ZTXTv ZTXTChunk ZTXTv.Parse (tagMatches ZTXTChunk p.chunks) p.chunks q.chunks he rfl
  unfold stepZTXTs
  rcases hP : claimLoop ZTXTChunk ZTXTv.Parse p.chunks with ⟨vs, P'⟩ | e | m <;>
    rcases hQ : claimLoop ZTXTChunk ZTXTv.Parse q.chunks with ⟨ws, Q'⟩ | e' | m' <;>
    rw [hP, hQ] at hrel <;> simp only [ResRel] at hrel <;> simp only [PngResRel]
  · obtain ⟨hab, hPQ⟩ := hrel
    subst hab
    exact ⟨by simp_all [sameContainer], by simpa using hPQ⟩
  · exact hrel
  · exact hrel

theorem stepIEND_rel {p q : Png} (hc : sameContainer p q)
    (he : PoolEquiv p.chunks q.chunks) : PngResRel (stepIEND p) (stepIEND q) := by
  have hrel := claimTyped_rel he IENDChunk IDATv.Parse
  unfold stepIEND
  rcases hP : claimTyped IENDChunk IDATv.Parse p.chunks with ⟨a, P'⟩ | e | m <;>
    rcases hQ : claimTyped IENDChunk IDATv.Parse q.chunks with ⟨b, Q'⟩ | e' | m' <;>
    rw [hP, hQ] at hrel <;> simp only [ResRel] at hrel <;> simp only [PngResRel]
  · obtain ⟨hab, hPQ⟩ := hrel
    subst hab
    exact ⟨by simp_all [sameContainer], by simpa using hPQ⟩
  · exact hrel
  · exact hrel

theorem parseBaseChunk_rel {p q : Png} (hc : sameContainer p q)
    (he : PoolEquiv p.chunks q.chunks) :
    PngResRel (parseBaseChunk p) (parseBaseChunk q) := by
  rw [parseBaseChunk, parseBaseChunk]
  refine PngResRel_bind (stepIHDR_rel hc he) fun p1 q1 hc1 he1 => ?_
  refine PngResRel_bind (stepIDATs_rel hc1 he1) fun p2 q2 hc2 he2 => ?_
  refine PngResRel_bind (stepPLTE_rel hc2 he2) fun p3 q3 hc3 he3 => ?_
  refine PngResRel_bind (stepBKGD_rel hc3 he3) fun p4 q4 hc4 he4 => ?_
  refine PngResRel_bind (stepCHRM_rel hc4 he4) fun p5 q5 hc5 he5 => ?_
  refine PngResRel_bind (stepGAMA_rel hc5 he5) fun p6 q6 hc6 he6 => ?_
  refine PngResRel_bind (stepHIST_rel hc6 he6) fun p7 q7 hc7 he7 => ?_
  refine PngResRel_bind (stepPHYS_rel hc7 he7) fun p8 q8 hc8 he8 => ?_
  refine PngResRel_bind (stepSBIT_rel hc8 he8) fun p9 q9 hc9 he9 => ?_
  refine PngResRel_bind (stepTEXTs_rel hc9 he9) fun p10 q10 hc10 he10 => ?_
  refine PngResRel_bind (stepTRNS_rel hc10 he10) fun p11 q11 hc11 he11 => ?_
  refine PngResRel_bind (stepTIME_rel hc11 he11) fun p12 q12 hc12 he12 => ?_
  refine PngResRel_bind (stepZTXTs_rel hc12 he12) fun p13 q13 hc13 he13 => ?_
  exact stepIEND_rel hc13 he13

/-- C9: the fixed plan's result depends on the pool only through the per-tag
subsequences.  For two containers whose pools are reorderings of one another
preserving the relative order of records sharing a tag (and whose other
fields agree), the plan yields the same outcome: the same error or panic, or
successes whose container fields are all equal (`claim` scans the whole pool
for a matching tag, so physical record order is irrelevant except among
records of the same tag). -/
theorem c9_reordering_invariance (p q : Png)
    (hperm : p.chunks.Perm q.chunks)
    (horder : ∀ name, tagMatches name p.chunks = tagMatches name q.chunks)
    (hc : sameContainer p q) :
    PngResRel (parseBaseChunk p) (parseBaseChunk q) :=
  parseBaseChunk_rel hc horder

def c9PoolA : List (Option chunk) :=
  [some ihdrChunk, some textChunk6, some idatChunk, some iendChunk]

def c9PoolB : List (Option chunk) :=
  [some idatChunk, some ihdrChunk, some iendChunk, some textChunk6]

theorem c9_reordering_invariance_witness :
    PngResRel (parseBaseChunk { chunks := c9PoolA }) (parseBaseChunk { chunks := c9PoolB }) := by
  apply c9_reordering_invariance
  · decide
  · intro name
    simp only [c9PoolA, c9PoolB, tagMatches_cons_some, tagMatches_nil, ihdrChunk,
      textChunk6, idatChunk, iendChunk, iendChunkC]
    by_cases h1 : IHDRChunk = name <;>
      by_cases h2 : TEXTChunk = name <;>
      by_cases h3 : IDATChunk = name <;>
      by_cases h4 : IENDChunk = name <;>
      first
      | exact absurd (h1.trans h2.symm) (by decide)
      | exact absurd (h1.trans h3.symm) (by decide)
      | exact absurd (h1.trans h4.symm) (by decide)
      | exact absurd (h2.trans h3.symm) (by decide)
      | exact absurd (h2.trans h4.symm) (by decide)
      | exact absurd (h3.trans h4.symm) (by decide)
      | simp [h1, h2, h3, h4]
  · simp [sameContainer]

end SimplePng
